import Mathlib

/-!
# Hyprland workspaces module: a shallow embedding

The development embeds `src/modules/hyprland/workspaces.cpp` as pure Lean
functions over explicit state.

* `std::string` is a list of characters (`Str`); `operator<` on strings is the
  lexicographic comparison `strLt`.
* `size_t` results of `std::string::find` are `Option Nat`, `none` standing for
  `npos`; the wrap-around of `npos + 1` to `0` is written out in `npos1`.
* A C++ exception that leaves a function is the result `none`.
* Replies of the IPC socket are inputs (`IPCReply`).
* Widget calls (buttons, labels, style classes) have no effect on the state
  modelled here and are left out.
-/

namespace Hyprland

/-- A `std::string`, as the list of its characters. -/
abbrev Str := List Char

/-- The comparison `a < b` of two `std::string`s: lexicographic, character by character. -/
def strLt : Str → Str → Bool
  | [], [] => false
  | [], _ :: _ => true
  | _ :: _, [] => false
  | a :: as, b :: bs =>
    if a.toNat < b.toNat then true
    else if b.toNat < a.toNat then false
    else strLt as bs

/-- The call `s.starts_with(p)`. -/
def starts_with (s p : Str) : Bool := p.isPrefixOf s

/-- The call `s.ends_with(p)`. -/
def ends_with (s p : Str) : Bool := p.isSuffixOf s

/-- The call `s.find(c, pos)` for a character `c`: the index of the first occurrence
at or after `pos`, `none` for `npos`. -/
def findChar (c : Char) : Str → Nat → Option Nat
  | [], _ => none
  | x :: xs, 0 => if x = c then some 0 else (findChar c xs 0).map (· + 1)
  | _ :: xs, pos + 1 => (findChar c xs pos).map (· + 1)

/-- The call `s.find(pat)` for a string pattern: the index of the first occurrence,
`none` for `npos`. -/
def findStr (pat : Str) : Str → Option Nat
  | [] => if pat.isPrefixOf [] then some 0 else none
  | x :: xs => if pat.isPrefixOf (x :: xs) then some 0 else (findStr pat xs).map (· + 1)

/-- The `size_t` expression `idx + 1` where `idx` came from `find`: `npos + 1` wraps to `0`. -/
def npos1 : Option Nat → Nat
  | some i => i + 1
  | none => 0

/-- The call `s.substr(0, idx)` where `idx` came from `find`: with `npos` the whole string. -/
def substrTo (s : Str) : Option Nat → Str
  | some i => s.take i
  | none => s

/-- The call `s.substr(idx + 1)` (also `s.substr(idx + 1, s.length() - idx)`, whose count
reaches the end of the string) where `idx` came from `find`: with `npos` the position
wraps to `0` and the result is the whole string. -/
def substrAfter (s : Str) (idx : Option Nat) : Str := s.drop (npos1 idx)

/-- The call `s.substr(last + 1, next - last - 1)` in `size_t` arithmetic, `last` and `next`
coming from `find`. With `next = npos` the count reaches the end of the string; with
`last = npos` the position wraps to `0` and the count `next - npos - 1` to `next`. -/
def substrBetween (s : Str) : Option Nat → Option Nat → Str
  | some i, some j => if i + 1 ≤ j then (s.drop (i + 1)).take (j - i - 1) else s.drop (i + 1)
  | some i, none => s.drop (i + 1)
  | none, some j => s.take j
  | none, none => s

/-- The call `s.substr(pos)` for a fixed position: it throws `std::out_of_range`
when `pos > s.size()`. -/
def substrFrom (s : Str) (pos : Nat) : Option Str :=
  if pos ≤ s.length then some (s.drop pos) else none

/-- The three outcomes of `std::stoi`. -/
inductive StoiResult where
  | ok (n : Int)
  | invalid_argument
  | out_of_range
  deriving DecidableEq, Repr

/-- The C `isspace` in the "C" locale. -/
def isspace (c : Char) : Bool := c.toNat = 32 || (9 ≤ c.toNat && c.toNat ≤ 13)

/-- The value of a run of decimal digits. -/
def digitsValue (ds : List Char) : Nat := ds.foldl (fun acc c => 10 * acc + (c.toNat - 48)) 0

/-- The call `std::stoi(s)`: leading white space is skipped, an optional sign is read,
then the longest run of decimal digits; what follows is ignored. No digit gives
`std::invalid_argument`, a value outside `int` gives `std::out_of_range`. -/
def stoi (s : Str) : StoiResult :=
  let s1 := s.dropWhile isspace
  let neg := s1.head? = some '-'
  let s2 := if s1.head? = some '-' ∨ s1.head? = some '+' then s1.tail else s1
  let ds := s2.takeWhile Char.isDigit
  if ds.isEmpty then StoiResult.invalid_argument
  else
    let v : Int := if neg then -(digitsValue ds : Int) else (digitsValue ds : Int)
    if v < -2147483648 ∨ 2147483647 < v then StoiResult.out_of_range else StoiResult.ok v

/-- Modelled from the spec: the types of `window_map_` and `regex_cache_` are declared in
`workspaces.hpp`, which is not among the sources; the spec describes `window_map` as an
insertion-ordered mapping from address to display string with unique keys. It is an
association list here; the functions below assume but do not require that keys are
unique. -/
abbrev StrMap := List (Str × Str)

/-- The call `m.contains(k)`. -/
def StrMap.contains (m : StrMap) (k : Str) : Bool := m.any (fun e => e.1 == k)

/-- The value stored under `k`, if any. -/
def StrMap.lookup (m : StrMap) (k : Str) : Option Str := (m.find? (fun e => e.1 == k)).map (·.2)

/-- The call `m.emplace(k, v)`: nothing happens when the key is present. -/
def StrMap.emplace (m : StrMap) (k v : Str) : StrMap :=
  if m.contains k then m else m ++ [(k, v)]

/-- The call `m.erase(k)`. -/
def StrMap.erase (m : StrMap) (k : Str) : StrMap := m.filter (fun e => !(e.1 == k))

/-- The sort strategies (`SORT_METHOD`). -/
inductive SORT_METHOD where
  | ID
  | NAME
  | NUMBER
  | DEFAULT
  deriving DecidableEq, Repr

/-- Modelled from the spec: the class `Workspace` is declared in `workspaces.hpp`, which is
not among the sources. The fields are those of the spec's data model, under the names the
constructor and the accessors of the source give them. -/
structure Workspace where
  id_ : Int
  name_ : Str
  output_ : Str
  windows_ : Nat
  active_ : Bool
  is_special_ : Bool
  is_persistent_ : Bool
  is_urgent_ : Bool
  is_visible_ : Bool
  window_map_ : StrMap
  deriving DecidableEq, Repr

/-- The DEFAULT case of the comparator of `sort_workspaces`. -/
def default_comp (a b : Workspace) : Bool :=
  let is_id_less := decide (a.id_ < b.id_)
  let is_name_less := strLt a.name_ b.name_
  -- both normal (includes numbered persistent) => sort by ID
  if 0 < a.id_ ∧ 0 < b.id_ then is_id_less
  -- one normal, one special => normal first
  else if xor a.is_special_ b.is_special_ then b.is_special_
  -- only one normal, one named
  else if xor (decide (0 < a.id_)) (decide (0 < b.id_)) then decide (0 < a.id_)
  -- both special
  else if a.is_special_ && b.is_special_ then
    -- if one is -99 => put it last
    if a.id_ = -99 ∨ b.id_ = -99 then decide (b.id_ = -99)
    else is_name_less
  -- sort non-special named workspaces by name
  else is_name_less

/-- The comparator lambda of `sort_workspaces`. In the NUMBER case a
`std::invalid_argument` is caught and control leaves the switch (`break`), reaching the
final `return is_name_less`; a `std::out_of_range` is not caught and leaves the
comparator (`none`). The left operand of `<` is evaluated first. -/
def sort_comp (sort_by_ : SORT_METHOD) (a b : Workspace) : Option Bool :=
  let is_id_less := decide (a.id_ < b.id_)
  let is_name_less := strLt a.name_ b.name_
  match sort_by_ with
  | SORT_METHOD.ID => some is_id_less
  | SORT_METHOD.NAME => some is_name_less
  | SORT_METHOD.NUMBER =>
    match stoi a.name_ with
    | StoiResult.invalid_argument => some is_name_less
    | StoiResult.out_of_range => none
    | StoiResult.ok x =>
      match stoi b.name_ with
      | StoiResult.invalid_argument => some is_name_less
      | StoiResult.out_of_range => none
      | StoiResult.ok y => some (decide (x < y))
  | SORT_METHOD.DEFAULT => some (default_comp a b)

/-- One record of the `workspaces` reply, which is also the payload a creation is
queued with. `persistent` is the member of that name when the record has one. -/
structure WorkspaceData where
  id : Int
  name : Str
  monitor : Str
  windows : Int
  persistent : Option Bool
  deriving DecidableEq, Repr

/-- One record of the `clients` reply. -/
structure ClientData where
  address : Str
  workspace_id : Int
  window_class : Str
  deriving DecidableEq, Repr

/-- One record of the `monitors` reply; `activeWorkspace` is the name of the member
`activeWorkspace` when that member is an object with a string name. -/
structure MonitorData where
  id : Int
  name : Str
  activeWorkspace : Option Str
  deriving DecidableEq, Repr

/-- The replies the IPC socket gives while one handler runs. -/
structure IPCReply where
  monitors : List MonitorData
  workspaces : List WorkspaceData
  clients : List ClientData
  deriving DecidableEq, Repr

/-- The `Workspaces` module object: configuration, registry, pending queues and caches.
`window_rewrite_rules_` is held as the function `rewriteStringOnce` computes from the
configured rules (the rewritten string and `matched_any`); `output_name` is
`bar_.output->name`. -/
structure Workspaces where
  all_outputs_ : Bool
  show_special_ : Bool
  active_only_ : Bool
  sort_by_ : SORT_METHOD
  with_icon_ : Bool
  icons_map_ : StrMap
  window_rewrite_rules_ : Str → Str × Bool
  window_rewrite_default_ : Str
  output_name : Str
  workspaces_ : List Workspace
  active_workspace_name_ : Str
  workspaces_to_remove_ : List Str
  workspaces_to_create_ : List WorkspaceData
  regex_cache_ : StrMap

/-- The method `Workspaces::get_rewrite`, on the cache it reads and writes: the returned
string and the cache afterwards. -/
def get_rewrite (rules : Str → Str × Bool) (dflt : Str) (regex_cache_ : StrMap)
    (window_class : Str) : Str × StrMap :=
  if regex_cache_.contains window_class then
    ((regex_cache_.lookup window_class).getD [], regex_cache_)
  else
    let r := rules window_class
    let window_class_rewrite := if !r.2 then dflt else r.1
    (window_class_rewrite, regex_cache_.emplace window_class window_class_rewrite)

/-- The method `Workspace::insert_window`. -/
def Workspace.insert_window (rules : Str → Str × Bool) (dflt : Str) (cache : StrMap)
    (w : Workspace) (addr window_class : Str) : Workspace × StrMap :=
  let r := get_rewrite rules dflt cache window_class
  if !r.1.isEmpty then ({ w with window_map_ := w.window_map_.emplace addr r.1 }, r.2)
  else (w, r.2)

/-- The method `Workspace::remove_window`: the stored representation and the workspace
without the entry. -/
def Workspace.remove_window (w : Workspace) (addr : Str) : Str × Workspace :=
  ((w.window_map_.lookup addr).getD [], { w with window_map_ := w.window_map_.erase addr })

/-- The overload of `Workspace::on_window_opened` that takes a representation. -/
def Workspace.on_window_opened_repr (w : Workspace) (addr workspace_name window_repr : Str) :
    Bool × Workspace :=
  if workspace_name = w.name_ then
    (true, { w with window_map_ := w.window_map_.emplace addr window_repr })
  else (false, w)

/-- The overload of `Workspace::on_window_opened` that takes a class and a title. -/
def Workspace.on_window_opened (rules : Str → Str × Bool) (dflt : Str) (cache : StrMap)
    (w : Workspace) (addr workspace_name window_class _window_title : Str) :
    Bool × Workspace × StrMap :=
  if workspace_name = w.name_ then (true, w.insert_window rules dflt cache addr window_class)
  else (false, w, cache)

/-- The method `Workspace::on_window_closed`. -/
def Workspace.on_window_closed (w : Workspace) (addr : Str) : Option Str × Workspace :=
  if w.window_map_.contains addr then
    let r := w.remove_window addr
    (some r.1, r.2)
  else (none, w)

/-- The loop of `Workspace::initialize_window_map` over the client records. The call
`client_address.substr(2, ...)` throws when the address has fewer than two characters. -/
def initialize_window_map_loop (rules : Str → Str × Bool) (dflt : Str) (id : Int) :
    List ClientData → Workspace × StrMap → Option (Workspace × StrMap)
  | [], acc => some acc
  | client :: rest, acc =>
    if client.workspace_id = id then
      match substrFrom client.address 2 with
      | none => none
      | some client_address =>
        initialize_window_map_loop rules dflt id rest
          (acc.1.insert_window rules dflt acc.2 client_address client.window_class)
    else initialize_window_map_loop rules dflt id rest acc

/-- The method `Workspace::initialize_window_map`. -/
def Workspace.initialize_window_map (rules : Str → Str × Bool) (dflt : Str) (cache : StrMap)
    (w : Workspace) (clients_data : List ClientData) : Option (Workspace × StrMap) :=
  initialize_window_map_loop rules dflt w.id_ clients_data ({ w with window_map_ := [] }, cache)

/-- The name and the special flag the constructor `Workspace::Workspace` computes from the
record's id and raw name. `name_.substr(8)` throws when the name has fewer than eight
characters. -/
def normalize_name (id : Int) (raw : Str) : Option (Str × Bool) :=
  if starts_with raw "name:".toList then some (raw.drop 5, false)
  else if starts_with raw "special".toList then
    if id = -99 then some (raw, true)
    else (substrFrom raw 8).map (fun n => (n, true))
  else some (raw, false)

/-- The constructor `Workspace::Workspace`. The flags the constructor does not set
(`is_special_` outside the special branch, `is_persistent_` without the member, `is_urgent_`,
`is_visible_`) start as false, their initialisers being in the missing header. -/
def Workspace.construct (rules : Str → Str × Bool) (dflt : Str) (cache : StrMap)
    (workspace_data : WorkspaceData) (clients_data : List ClientData) :
    Option (Workspace × StrMap) :=
  match normalize_name workspace_data.id workspace_data.name with
  | none => none
  | some (name, special) =>
    Workspace.initialize_window_map rules dflt cache
      { id_ := workspace_data.id
        name_ := name
        output_ := workspace_data.monitor
        windows_ := (workspace_data.windows % 4294967296).toNat
        active_ := true
        is_special_ := special
        is_persistent_ := workspace_data.persistent.getD false
        is_urgent_ := false
        is_visible_ := false
        window_map_ := [] }
      clients_data

/-- The name test of `remove_workspace` and `create_workspace`: the queued name equals the
workspace's name, or starts with `special:` and equals it once those eight characters
are dropped. -/
def name_matches (name : Str) (x : Workspace) : Bool :=
  (starts_with name "special:".toList && name.drop 8 == x.name_) || name == x.name_

/-- The scan that moves `val` to its place from the right end of the sorted part: `val`
passes every element it compares less than and stops at the first one it does not. The
sorted part is given, and the result returned, from right to left. A comparison that
throws ends the sort. -/
def linear_insert (sort_by_ : SORT_METHOD) (val : Workspace) :
    List Workspace → Option (List Workspace)
  | [] => some [val]
  | y :: ys =>
    match sort_comp sort_by_ val y with
    | none => none
    | some true => (linear_insert sort_by_ val ys).map (fun r => y :: r)
    | some false => some (val :: y :: ys)

/-- One step of the insertion sort: the next element `val` is compared with the first
element of the sorted part and goes to the front when it compares less; otherwise it is
moved to its place from the right end. -/
def sort_insert (sort_by_ : SORT_METHOD) (val : Workspace) (sorted : List Workspace) :
    Option (List Workspace) :=
  match sorted with
  | [] => some [val]
  | first :: _ =>
    match sort_comp sort_by_ val first with
    | none => none
    | some true => some (val :: sorted)
    | some false => (linear_insert sort_by_ val sorted.reverse).map List.reverse

/-- The insertion sort, with the part sorted so far and the elements still to insert. -/
def sort_from (sort_by_ : SORT_METHOD) : List Workspace → List Workspace → Option (List Workspace)
  | sorted, [] => some sorted
  | sorted, val :: rest =>
    match sort_insert sort_by_ val sorted with
    | none => none
    | some sorted1 => sort_from sort_by_ sorted1 rest

/-- The method `Workspaces::sort_workspaces` on the registry. The algorithm of `std::sort`
is left to the library; it is modelled as the insertion sort that libstdc++ runs on a
range of at most sixteen elements, which calls the comparator `sort_comp` on (the element
to place, an element of the sorted part) and keeps equal elements in their order. -/
def sort_workspaces (sort_by_ : SORT_METHOD) (registry : List Workspace) :
    Option (List Workspace) :=
  sort_from sort_by_ [] registry

/-- The method `Workspaces::create_workspace`. -/
def Workspaces.create_workspace (s : Workspaces) (workspace_data : WorkspaceData)
    (clients_data : List ClientData) : Option Workspaces :=
  -- replace the existing persistent workspace if it exists
  let is_replaced := fun x : Workspace => x.is_persistent_ && name_matches workspace_data.name x
  let found := (s.workspaces_.find? is_replaced).isSome
  -- replace workspace, but keep persistent flag
  let kept := if found then s.workspaces_.eraseP is_replaced else s.workspaces_
  let data := if found then { workspace_data with persistent := some true } else workspace_data
  -- create new workspace
  match Workspace.construct s.window_rewrite_rules_ s.window_rewrite_default_ s.regex_cache_
      data clients_data with
  | none => none
  | some (w, cache) =>
    match sort_workspaces s.sort_by_ (kept ++ [w]) with
    | none => none
    | some sorted => some { s with workspaces_ := sorted, regex_cache_ := cache }

/-- The method `Workspaces::remove_workspace`. -/
def Workspaces.remove_workspace (s : Workspaces) (name : Str) : Workspaces :=
  match s.workspaces_.find? (name_matches name) with
  | none => s
  | some w =>
    if w.is_persistent_ then s
    else { s with workspaces_ := s.workspaces_.eraseP (name_matches name) }

/-- The first icon of `icons_map` under `key`, when `cond` holds; otherwise `rest`. -/
def icon_or (icons_map : StrMap) (cond : Bool) (key : Str) (rest : Str) : Str :=
  if cond then
    match icons_map.lookup key with
    | some icon => icon
    | none => rest
  else rest

/-- The method `Workspace::select_icon`. The accessor `is_empty()`, declared in the missing
header, is taken from the spec: the window count is zero. -/
def Workspace.select_icon (w : Workspace) (icons_map : StrMap) : Str :=
  icon_or icons_map w.is_urgent_ "urgent".toList <|
  icon_or icons_map w.active_ "active".toList <|
  icon_or icons_map w.is_special_ "special".toList <|
  icon_or icons_map true w.name_ <|
  icon_or icons_map w.is_visible_ "visible".toList <|
  icon_or icons_map (w.windows_ == 0) "empty".toList <|
  icon_or icons_map w.is_persistent_ "persistent".toList <|
  icon_or icons_map true "default".toList <|
  w.name_

/-- The assignment `m[k] = v`. -/
def StrMap.assign (m : StrMap) (k v : Str) : StrMap :=
  if m.contains k then m.map (fun e => if e.1 == k then (e.1, v) else e) else m ++ [(k, v)]

/-- The flags one workspace gets in the loop of `Workspaces::update`. -/
def update_flags (active_workspace_name_ : Str) (visible_workspaces : List Str)
    (w : Workspace) : Workspace :=
  { w with
    active_ := w.name_ == active_workspace_name_
    is_urgent_ := if w.name_ == active_workspace_name_ && w.is_urgent_ then false
                  else w.is_urgent_
    is_visible_ := visible_workspaces.contains w.name_ }

/-- The loop of `Workspaces::update` over the registry: the flags of each workspace, and the
entry of `icons_map_` under the empty key, which receives each selected icon. -/
def update_loop (active_workspace_name_ : Str) (visible_workspaces : List Str)
    (with_icon_ : Bool) : List Workspace → StrMap → List Workspace × StrMap
  | [], icons => ([], icons)
  | w :: rest, icons =>
    let w1 := update_flags active_workspace_name_ visible_workspaces w
    let icons0 := if icons.contains [] then icons else icons ++ [([], [])]
    let icons1 := if with_icon_ then icons0.assign [] (w1.select_icon icons0) else icons0
    let r := update_loop active_workspace_name_ visible_workspaces with_icon_ rest icons1
    (w1 :: r.1, r.2)

/-- The creation loop of `Workspaces::update`. These creations pass no client list: the
default argument of `create_workspace`, declared in the missing header, is taken to be an
empty document. -/
def create_all : List WorkspaceData → Workspaces → Option Workspaces
  | [], s => some s
  | d :: rest, s =>
    match s.create_workspace d [] with
    | none => none
    | some s1 => create_all rest s1

/-- The method `Workspaces::update`, the reconciliation tick. -/
def Workspaces.update (s : Workspaces) (reply : IPCReply) : Option Workspaces :=
  let s1 := s.workspaces_to_remove_.foldl Workspaces.remove_workspace s
  let s2 := { s1 with workspaces_to_remove_ := [] }
  match create_all s2.workspaces_to_create_ s2 with
  | none => none
  | some s3 =>
    let s4 := { s3 with workspaces_to_create_ := [] }
    let visible_workspaces := reply.monitors.filterMap (fun m => m.activeWorkspace)
    let r := update_loop s4.active_workspace_name_ visible_workspaces s4.with_icon_
      s4.workspaces_ s4.icons_map_
    some { s4 with workspaces_ := r.1, icons_map_ := r.2 }

/-- The function `isDoubleSpecial`. -/
def isDoubleSpecial (workspace_name : Str) : Bool :=
  (findStr "special:special:".toList workspace_name).isSome

/-- The loop of `Workspaces::on_window_opened`: the first workspace that accepts the window
ends the loop. -/
def opened_loop (rules : Str → Str × Bool) (dflt : Str)
    (addr workspace_name window_class window_title : Str) :
    List Workspace → StrMap → List Workspace × StrMap
  | [], cache => ([], cache)
  | w :: rest, cache =>
    let r := w.on_window_opened rules dflt cache addr workspace_name window_class window_title
    if r.1 then (r.2.1 :: rest, r.2.2)
    else
      let r1 := opened_loop rules dflt addr workspace_name window_class window_title rest r.2.2
      (r.2.1 :: r1.1, r1.2)

/-- The method `Workspaces::on_window_opened`: the payload is split at its first three
commas into address, workspace name, class and title. -/
def Workspaces.on_window_opened (s : Workspaces) (payload : Str) : Workspaces :=
  let next1 := findChar ',' payload 0
  let window_address := substrTo payload next1
  let next2 := findChar ',' payload (npos1 next1)
  let workspace_name := substrBetween payload next1 next2
  let next3 := findChar ',' payload (npos1 next2)
  let window_class := substrBetween payload next2 next3
  let window_title := substrAfter payload next3
  let r := opened_loop s.window_rewrite_rules_ s.window_rewrite_default_
    window_address workspace_name window_class window_title s.workspaces_ s.regex_cache_
  { s with workspaces_ := r.1, regex_cache_ := r.2 }

/-- The loop of `Workspaces::on_window_closed`, which is also the first loop of
`Workspaces::on_window_moved`: the first workspace that holds the address gives it up; the
result carries the representation it had there, if any workspace held it. -/
def closed_loop (addr : Str) : List Workspace → Option Str × List Workspace
  | [] => (none, [])
  | w :: rest =>
    match w.on_window_closed addr with
    | (some window_repr, w1) => (some window_repr, w1 :: rest)
    | (none, w1) =>
      let r := closed_loop addr rest
      (r.1, w1 :: r.2)

/-- The method `Workspaces::on_window_closed`. -/
def Workspaces.on_window_closed (s : Workspaces) (addr : Str) : Workspaces :=
  { s with workspaces_ := (closed_loop addr s.workspaces_).2 }

/-- The second loop of `Workspaces::on_window_moved`: the first workspace of the given name
receives the window with its representation. -/
def moved_loop (addr workspace_name window_repr : Str) : List Workspace → List Workspace
  | [] => []
  | w :: rest =>
    let r := w.on_window_opened_repr addr workspace_name window_repr
    if r.1 then r.2 :: rest else r.2 :: moved_loop addr workspace_name window_repr rest

/-- The method `Workspaces::on_window_moved`. When no workspace holds the address the
representation stays the empty string it was declared as. -/
def Workspaces.on_window_moved (s : Workspaces) (payload : Str) : Workspaces :=
  let next_comma_idx := findChar ',' payload 0
  let window_address := substrTo payload next_comma_idx
  let workspace_name := substrAfter payload next_comma_idx
  let r := closed_loop window_address s.workspaces_
  let window_repr := r.1.getD []
  { s with workspaces_ := moved_loop window_address workspace_name window_repr r.2 }

/-- The method `Workspaces::update_window_count`. The conversion `asUInt` throws on a value
outside `0 .. 2^32 - 1`; the exception is caught and the count stays `0`. -/
def Workspaces.update_window_count (s : Workspaces) (workspaces_json : List WorkspaceData) :
    Workspaces :=
  { s with workspaces_ := s.workspaces_.map (fun w =>
      let count := match workspaces_json.find? (fun x => x.name == w.name_) with
        | some x => if 0 ≤ x.windows ∧ x.windows < 4294967296 then x.windows.toNat else 0
        | none => 0
      { w with windows_ := count }) }

/-- The lookup of `set_urgent_workspace` and the call `set_urgent()` on the first workspace
of the given id; the default argument of `set_urgent`, declared in the missing header, is
taken to be `true`. -/
def set_urgent_first (workspace_id : Int) : List Workspace → List Workspace
  | [] => []
  | w :: rest =>
    if w.id_ = workspace_id then { w with is_urgent_ := true } :: rest
    else w :: set_urgent_first workspace_id rest

/-- The method `Workspaces::set_urgent_workspace`. -/
def Workspaces.set_urgent_workspace (s : Workspaces) (clients_json : List ClientData)
    (windowaddress : Str) : Workspaces :=
  let workspace_id : Int :=
    match clients_json.find? (fun c => ends_with c.address windowaddress) with
    | some c => c.workspace_id
    | none => -1
  { s with workspaces_ := set_urgent_first workspace_id s.workspaces_ }

/-- The loop of the `renameworkspace` branch of `onEvent`: the first workspace of the given
id is renamed, and the active-name pointer follows it when it pointed at its old name. -/
def rename_loop (workspace_id : Int) (new_name : Str) :
    List Workspace → Str → List Workspace × Str
  | [], active => ([], active)
  | w :: rest, active =>
    if w.id_ = workspace_id then
      ({ w with name_ := new_name } :: rest, if w.name_ = active then new_name else active)
    else
      let r := rename_loop workspace_id new_name rest active
      (w :: r.1, r.2)

/-- The record `onEvent` queues for a `createworkspace` event. -/
def created_record (s : Workspaces) (workspaces_json : List WorkspaceData) (payload : Str) :
    Option WorkspaceData :=
  workspaces_json.find? (fun workspace_json =>
    workspace_json.name == payload &&
    (s.all_outputs_ || s.output_name == workspace_json.monitor) &&
    (s.show_special_ || !starts_with workspace_json.name "special".toList) &&
    !isDoubleSpecial payload)

/-- The branches of `Workspaces::onEvent` once the event name and payload are split. -/
def handle_event (s : Workspaces) (reply : IPCReply) (eventName payload : Str) :
    Option Workspaces :=
  if eventName = "workspace".toList then
    some { s with active_workspace_name_ := payload }
  else if eventName = "destroyworkspace".toList then
    if !isDoubleSpecial payload then
      some { s with workspaces_to_remove_ := s.workspaces_to_remove_ ++ [payload] }
    else some s
  else if eventName = "createworkspace".toList then
    match created_record s reply.workspaces payload with
    | some workspace_json =>
      some { s with workspaces_to_create_ := s.workspaces_to_create_ ++ [workspace_json] }
    | none => some s
  else if eventName = "focusedmon".toList then
    some { s with active_workspace_name_ := substrAfter payload (findChar ',' payload 0) }
  else if eventName = "moveworkspace".toList ∧ s.all_outputs_ = false then
    let workspace := substrTo payload (findChar ',' payload 0)
    let new_output := substrAfter payload (findChar ',' payload 0)
    if s.output_name = new_output then
      match reply.workspaces.find? (fun workspace_json =>
          workspace_json.name == workspace && s.output_name == workspace_json.monitor) with
      | some workspace_json =>
        some { s with workspaces_to_create_ := s.workspaces_to_create_ ++ [workspace_json] }
      | none => some s
    else some { s with workspaces_to_remove_ := s.workspaces_to_remove_ ++ [workspace] }
  else if eventName = "openwindow".toList then
    some ((s.update_window_count reply.workspaces).on_window_opened payload)
  else if eventName = "closewindow".toList then
    some ((s.update_window_count reply.workspaces).on_window_closed payload)
  else if eventName = "movewindow".toList then
    some ((s.update_window_count reply.workspaces).on_window_moved payload)
  else if eventName = "urgent".toList then
    some (s.set_urgent_workspace reply.clients payload)
  else if eventName = "renameworkspace".toList then
    let workspace_id_str := substrTo payload (findChar ',' payload 0)
    let workspace_id : Option Int :=
      if workspace_id_str = "special".toList then some (-99)
      else match stoi workspace_id_str with
        | StoiResult.ok n => some n
        | _ => none
    let new_name := substrAfter payload (findChar ',' payload 0)
    match workspace_id with
    | none => none
    | some id =>
      let r := rename_loop id new_name s.workspaces_ s.active_workspace_name_
      some { s with workspaces_ := r.1, active_workspace_name_ := r.2 }
  else some s

/-- The method `Workspaces::onEvent`. The event name is the text before the first `>`; the
payload starts two characters after it (the stream writes `name>>payload`). A line with no
`>` makes the name's iterator range run past the end, and a line with fewer than two
characters after the name makes `substr` throw: both are the result `none`. -/
def Workspaces.onEvent (s : Workspaces) (reply : IPCReply) (ev : Str) : Option Workspaces :=
  match findChar '>' ev 0 with
  | none => none
  | some i =>
    let eventName := ev.take i
    match substrFrom ev (eventName.length + 2) with
    | none => none
    | some payload => handle_event s reply eventName payload

/-! ## Persistent workspaces -/

/-- The decimal digit of a number below ten. -/
def digit_char (d : Nat) : Char := Char.ofNat (48 + d)

/-- The decimal digits of `n`, most significant first; `fuel` bounds the number of digits. -/
def to_digits : Nat → Nat → Str
  | 0, _ => []
  | fuel + 1, n =>
    if n < 10 then [digit_char n] else to_digits fuel (n / 10) ++ [digit_char (n % 10)]

/-- The call `std::to_string(x)` for an `int`: the decimal rendering, with a leading `-` for
a negative number. -/
def to_string : Int → Str
  | Int.ofNat n => to_digits (n + 1) n
  | Int.negSucc n => '-' :: to_digits (n + 2) (n + 1)

/-- One element of an array of the persistent-workspaces configuration: `int n` when
`isInt()` holds (`asInt()` is `n`), `str s` when `isString()` holds, `other` otherwise. -/
inductive ConfigItem where
  | int (n : Int)
  | str (s : Str)
  | other
  deriving DecidableEq, Repr

/-- The value of one key of the persistent-workspaces configuration: `int n` when `isInt()`
holds, `array items` when `isArray()` holds, `other` otherwise. -/
inductive ConfigValue where
  | int (n : Int)
  | array (items : List ConfigItem)
  | other
  deriving DecidableEq, Repr

/-- The body of the loop of `Workspaces::fill_persistent_workspaces` for one key: the names
it appends to `persistent_workspaces_to_create_`. `keys` are all the keys of the mapping,
`output_name` is `bar_.output->name`. The type of `monitor_id_`, and with it the type in
which `monitor_id_ * amount + i + 1` is computed, is declared in `workspaces.hpp`, which is
not among the sources: it is taken as the parameter `held`, the value an object of that
type holds when the exact result of an operation is `x` (`x` itself when the type can hold
it), applied to the product and to each of the two sums. -/
def fill_for_key (held : Int → Int) (keys : List Str) (output_name : Str) (monitor_id_ : Int)
    (key : Str) (value : ConfigValue) : List Str :=
  -- only add if either:
  -- 1. key is "*" and this monitor is not already defined in the config
  -- 2. key is the current monitor name
  let can_create := (key == "*".toList && !keys.contains output_name) || key == output_name
  match value with
  | ConfigValue.int amount =>
    -- value is a number => create that many workspaces for this monitor
    if can_create then
      (List.range amount.toNat).map (fun i : Nat =>
        to_string (held (held (held (monitor_id_ * amount) + (i : Int)) + 1)))
    else []
  | ConfigValue.array items =>
    if items.isEmpty then [key]
    else if can_create then
      -- value is an array => create defined workspaces for this monitor
      items.filterMap (fun workspace =>
        match workspace with
        | ConfigItem.int n => some (to_string n)
        | _ => none)
    else
      -- key is the workspace and value is array of monitors to create on
      if items.any (fun monitor =>
        match monitor with
        | ConfigItem.str m => m == output_name
        | _ => false) then [key]
      else []
  | ConfigValue.other =>
    -- this workspace should be displayed on all monitors
    [key]

/-- The method `Workspaces::fill_persistent_workspaces`: the names appended to
`persistent_workspaces_to_create_`. The two arguments after `held` are the members
`persistent-workspaces` and `persistent_workspaces` of the configuration when they are
objects, as the lists of their keys and values. -/
def fill_persistent_workspaces (held : Int → Int)
    (dashed underscored : Option (List (Str × ConfigValue)))
    (output_name : Str) (monitor_id_ : Int) : List Str :=
  let persistent_workspaces := match dashed with
    | some o => some o
    | none => underscored
  match persistent_workspaces with
  | none => []
  | some o =>
    o.flatMap (fun kv =>
      fill_for_key held (o.map (fun e => e.1)) output_name monitor_id_ kv.1 kv.2)

/-- The record `Workspaces::create_persistent_workspaces` builds for one name. Every
exception of the id's parse is caught and the id is then `0`. -/
def persistent_record (output_name workspace_name : Str) : WorkspaceData :=
  { id :=
      if workspace_name = "special".toList then -99
      else match stoi workspace_name with
        | StoiResult.ok n => n
        | _ => 0
    name := workspace_name
    monitor := output_name
    windows := 0
    persistent := some true }

/-- The method `Workspaces::create_persistent_workspaces`, on the names to create. -/
def Workspaces.create_persistent_workspaces : Workspaces → List Str → Option Workspaces
  | s, [] => some s
  | s, workspace_name :: rest =>
    match s.create_workspace (persistent_record s.output_name workspace_name) [] with
    | none => none
    | some s1 => s1.create_persistent_workspaces rest

/-- The method `Workspace::handle_clicked`: the command it passes to the socket. -/
def Workspace.handle_clicked (w : Workspace) : Str :=
  if 0 < w.id_ then
    -- normal or numbered persistent
    "dispatch workspace ".toList ++ to_string w.id_
  else if !w.is_special_ then
    -- named
    "dispatch workspace name:".toList ++ w.name_
  else if w.id_ ≠ -99 then
    -- named special
    "dispatch togglespecialworkspace ".toList ++ w.name_
  else
    -- special
    "dispatch togglespecialworkspace".toList

/-! ## Predicates and drivers used by the statements -/

/-- The workspace's window map holds the address. -/
def Workspace.has_window (w : Workspace) (addr : Str) : Bool := w.window_map_.contains addr

/-- The workspaces of a registry whose window map holds the address. -/
def holders (reg : List Workspace) (addr : Str) : List Workspace :=
  reg.filter (fun w => w.has_window addr)

/-- Every window address occurs in at most one workspace's window map. -/
def addr_unique (reg : List Workspace) : Prop := ∀ addr : Str, (holders reg addr).length ≤ 1

/-- No adjacent pair `(x, y)` of the registry has `comp(y, x)`. -/
def adjacent_ordered (sort_by_ : SORT_METHOD) : List Workspace → Bool
  | [] => true
  | [_] => true
  | x :: y :: rest =>
    !(sort_comp sort_by_ y x == some true) && adjacent_ordered sort_by_ (y :: rest)

/-- The number of workspaces of a registry whose `active` flag is set. -/
def active_count (reg : List Workspace) : Nat := (reg.filter (fun w => w.active_)).length

/-- One step of the module's life: an event line handled by `onEvent`, or a run of
`update`, each with the replies the socket gives meanwhile. -/
inductive Step where
  | event (reply : IPCReply) (ev : Str)
  | tick (reply : IPCReply)

/-- The steps run in order; an exception ends the run. -/
def run : List Step → Workspaces → Option Workspaces
  | [], s => some s
  | Step.event reply ev :: rest, s =>
    match s.onEvent reply ev with
    | none => none
    | some s1 => run rest s1
  | Step.tick reply :: rest, s =>
    match s.update reply with
    | none => none
    | some s1 => run rest s1

/-! ## Concrete inputs -/

/-- A configuration on output `DP-1` that sorts by DEFAULT, shows special workspaces and
has one rewrite rule (class `firefox` becomes `F`, any other class gets the default `?`),
with an empty registry. -/
def base_state : Workspaces :=
  { all_outputs_ := false
    show_special_ := true
    active_only_ := false
    sort_by_ := SORT_METHOD.DEFAULT
    with_icon_ := false
    icons_map_ := []
    window_rewrite_rules_ := fun c => if c = "firefox".toList then ("F".toList, true) else (c, false)
    window_rewrite_default_ := "?".toList
    output_name := "DP-1".toList
    workspaces_ := []
    active_workspace_name_ := []
    workspaces_to_remove_ := []
    workspaces_to_create_ := []
    regex_cache_ := [] }

/-- A workspace with the given id, name and special flag, every other flag off, no window. -/
def plain_workspace (id : Int) (name : String) (special : Bool) : Workspace :=
  { id_ := id
    name_ := name.toList
    output_ := "DP-1".toList
    windows_ := 0
    active_ := false
    is_special_ := special
    is_persistent_ := false
    is_urgent_ := false
    is_visible_ := false
    window_map_ := [] }

/-- The record the compositor reports for its unnamed special workspace. -/
def unnamed_special_record : WorkspaceData :=
  { id := -99, name := "special".toList, monitor := "DP-1".toList, windows := 0,
    persistent := none }

/-- A reply with no monitor, workspace or client. -/
def empty_reply : IPCReply := { monitors := [], workspaces := [], clients := [] }

/-- Workspace `ws1` holding window `AA` shown as `F`, and the empty workspace `ws2`. -/
def two_workspaces : List Workspace :=
  [{ plain_workspace 1 "ws1" false with window_map_ := [("AA".toList, "F".toList)] },
    plain_workspace 2 "ws2" false]

/-- The record the compositor reports for the named workspace `dev` on output `DP-1`. -/
def dev_record : WorkspaceData :=
  { id := -1337, name := "dev".toList, monitor := "DP-1".toList, windows := 0,
    persistent := none }

/-- A reply whose workspace list holds `dev` only. -/
def dev_reply : IPCReply := { monitors := [], workspaces := [dev_record], clients := [] }

/-- A registry with two workspaces named `dev`: a non-persistent one, then a persistent
one. -/
def dev_twice : List Workspace :=
  [plain_workspace 3 "dev" false, { plain_workspace 0 "dev" false with is_persistent_ := true }]

/-- Under NUMBER no comparison of the registry's names can throw: no name is out of the
range of `int`. -/
def sort_safe (sort_by_ : SORT_METHOD) (reg : List Workspace) : Prop :=
  sort_by_ = SORT_METHOD.NUMBER → ∀ x ∈ reg, stoi x.name_ ≠ StoiResult.out_of_range

/-- The persistent placeholder named `dev`. -/
def persistent_dev : Workspace := { plain_workspace 0 "dev" false with is_persistent_ := true }

/-- The step is a tick, or a `createworkspace` or `destroyworkspace` event whose payload
contains `special:special:`. -/
def doubled_special_step : Step → Prop
  | Step.tick _ => True
  | Step.event _ ev => ∃ pre post : Str,
      ev = "createworkspace>>".toList ++ (pre ++ "special:special:".toList ++ post) ∨
      ev = "destroyworkspace>>".toList ++ (pre ++ "special:special:".toList ++ post)

/-- A reply whose workspace list holds a record named `special:special:x`. -/
def doubled_reply : IPCReply :=
  { monitors := []
    workspaces := [{ id := -98, name := "special:special:x".toList, monitor := "DP-1".toList,
                     windows := 0, persistent := none }]
    clients := [] }

/-- A creation and a destruction of `special:special:x`, each followed by a tick. -/
def doubled_steps : List Step :=
  [Step.event doubled_reply "createworkspace>>special:special:x".toList,
    Step.tick doubled_reply,
    Step.event doubled_reply "destroyworkspace>>special:special:x".toList,
    Step.tick doubled_reply]

/-- A registry under NUMBER whose persistent workspace has a name outside the range of
`int`. -/
def overflow_state : Workspaces :=
  { base_state with
    sort_by_ := SORT_METHOD.NUMBER
    workspaces_ := [plain_workspace 1 "1" false,
      { plain_workspace 0 "99999999999" false with is_persistent_ := true }] }

/-- The record of the workspace named `99999999999`. -/
def overflow_record : WorkspaceData :=
  { id := -1337, name := "99999999999".toList, monitor := "DP-1".toList, windows := 0,
    persistent := none }

/-- The icon keys in the order of priority the spec gives, each with the condition under
which it is considered. -/
def icon_priorities (w : Workspace) : List (Bool × Str) :=
  [(w.is_urgent_, "urgent".toList), (w.active_, "active".toList),
    (w.is_special_, "special".toList), (true, w.name_), (w.is_visible_, "visible".toList),
    (w.windows_ == 0, "empty".toList), (w.is_persistent_, "persistent".toList),
    (true, "default".toList)]

/-- The icon selection in the spec's words: the value of the first key, in the order of
priority, that is considered and present in the map; the workspace's own name when there
is none. -/
def select_icon_by_priority (w : Workspace) (icons_map : StrMap) : Str :=
  match (icon_priorities w).find? (fun c => c.1 && icons_map.contains c.2) with
  | some c => (icons_map.lookup c.2).getD w.name_
  | none => w.name_

/-- The event kinds `Workspaces::register_ipc` registers the module for. -/
def registered_kinds : List Str :=
  ["workspace".toList, "createworkspace".toList, "destroyworkspace".toList,
    "focusedmon".toList, "moveworkspace".toList, "renameworkspace".toList,
    "openwindow".toList, "closewindow".toList, "movewindow".toList, "urgent".toList]

/-- The cache after a run of calls of `get_rewrite`, one for each class of the list. -/
def rewrite_all (rules : Str → Str × Bool) (dflt : Str) (cache : StrMap) (classes : List Str) :
    StrMap :=
  classes.foldl (fun acc k => (get_rewrite rules dflt acc k).2) cache

/-- The name and the special flag of a workspace in the spec's words: a leading `name:` is
stripped; else a name starting with `special` makes the workspace special and loses its
first eight characters unless the id is -99; else the name is kept. -/
def normalized_name (id : Int) (raw : Str) : Str × Bool :=
  if starts_with raw "name:".toList then (raw.drop 5, false)
  else if starts_with raw "special".toList then (if id = -99 then raw else raw.drop 8, true)
  else (raw, false)

/-- A registry holding workspace 1 and the named special workspace `scratch` with id -1. -/
def with_special_minus_one : List Workspace :=
  [plain_workspace 1 "1" false, plain_workspace (-1) "scratch" true]

/-- A clients reply with one window, `0xAA` on workspace 1. -/
def one_client_reply : IPCReply :=
  { monitors := [], workspaces := []
    clients := [{ address := "0xAA".toList, workspace_id := 1, window_class := "kitty".toList }] }

/-- The registry of a state, when there is one. -/
def registry (r : Option Workspaces) : Option (List Workspace) := r.map (fun s => s.workspaces_)

end Hyprland

open Hyprland

/-! ## C1 -/

/-- C1: under DEFAULT the comparator of `sort_workspaces` is not irreflexive. The workspace
built from the compositor's record of the unnamed special workspace (id -99) compares
before itself, so the comparator is no strict order on a registry that holds it. -/
theorem C1_default_comp_unnamed_special_before_itself :
    (Workspace.construct base_state.window_rewrite_rules_ base_state.window_rewrite_default_ []
        unnamed_special_record []).map (fun r => r.1)
      = some { plain_workspace (-99) "special" true with active_ := true } ∧
    sort_comp SORT_METHOD.DEFAULT { plain_workspace (-99) "special" true with active_ := true }
      { plain_workspace (-99) "special" true with active_ := true } = some true := by
  constructor <;> decide

/-! ## C2 -/

/-- C2, counterexample: under NUMBER, for workspace 1 named `b` and workspace 2 named `a`
(neither name parses), the comparator answers `false` (the name comparison) where the
DEFAULT cascade answers `true` (the id comparison). For a name out of the range of `int`
the comparator returns nothing: the exception leaves it. -/
theorem C2_number_fallback_is_not_default :
    stoi (plain_workspace 1 "b" false).name_ = StoiResult.invalid_argument ∧
    sort_comp SORT_METHOD.NUMBER (plain_workspace 1 "b" false) (plain_workspace 2 "a" false)
      = some false ∧
    sort_comp SORT_METHOD.DEFAULT (plain_workspace 1 "b" false) (plain_workspace 2 "a" false)
      = some true ∧
    sort_comp SORT_METHOD.NUMBER (plain_workspace 1 "99999999999" false)
      (plain_workspace 2 "a" false) = none := by
  refine ⟨?_, ?_, ?_, ?_⟩ <;> decide

/-- C2, amended: under NUMBER, when a name of the pair cannot be parsed as an integer and
neither name is out of the range of `int`, the comparator returns the name comparison
`a.name < b.name`. -/
theorem C2_number_fallback_is_name_less (a b : Workspace)
    (hparse : stoi a.name_ = StoiResult.invalid_argument ∨
      stoi b.name_ = StoiResult.invalid_argument)
    (ha : stoi a.name_ ≠ StoiResult.out_of_range)
    (hb : stoi b.name_ ≠ StoiResult.out_of_range) :
    sort_comp SORT_METHOD.NUMBER a b = some (strLt a.name_ b.name_) := by
  unfold sort_comp
  cases hsa : stoi a.name_ with
  | invalid_argument => rfl
  | out_of_range => exact absurd hsa ha
  | ok x =>
    cases hsb : stoi b.name_ with
    | invalid_argument => rfl
    | out_of_range => exact absurd hsb hb
    | ok y =>
      rcases hparse with h | h
      · rw [hsa] at h; cases h
      · rw [hsb] at h; cases h

/-- C2, amended, at workspace 1 named `b` and workspace 2 named `a`. -/
theorem C2_number_fallback_is_name_less_witness :
    sort_comp SORT_METHOD.NUMBER (plain_workspace 1 "b" false) (plain_workspace 2 "a" false)
      = some (strLt (plain_workspace 1 "b" false).name_ (plain_workspace 2 "a" false).name_) :=
  C2_number_fallback_is_name_less (plain_workspace 1 "b" false) (plain_workspace 2 "a" false)
    (Or.inl (by decide)) (by decide) (by decide)

/-! ## C3 -/

/-- C3: the tick does not re-sort. On the ordered registry of the named workspaces `a`
(id -1337) and `b` (id -1338), the event `renameworkspace>>-1337,z` followed by a tick with
no queued creation leaves the registry as `z`, `b`, where `comp(b, z)` holds. -/
theorem C3_tick_after_rename_leaves_registry_unordered :
    adjacent_ordered SORT_METHOD.DEFAULT
      [plain_workspace (-1337) "a" false, plain_workspace (-1338) "b" false] = true ∧
    registry (run [Step.event empty_reply "renameworkspace>>-1337,z".toList,
        Step.tick empty_reply]
      { base_state with
        workspaces_ := [plain_workspace (-1337) "a" false, plain_workspace (-1338) "b" false] })
      = some [plain_workspace (-1337) "z" false, plain_workspace (-1338) "b" false] ∧
    sort_comp SORT_METHOD.DEFAULT (plain_workspace (-1338) "b" false)
      (plain_workspace (-1337) "z" false) = some true ∧
    adjacent_ordered SORT_METHOD.DEFAULT
      [plain_workspace (-1337) "z" false, plain_workspace (-1338) "b" false] = false := by
  refine ⟨?_, ?_, ?_, ?_⟩ <;> decide

/-! ## Association maps -/

theorem StrMap.contains_erase (m : StrMap) (k a : Str) :
    (m.erase k).contains a = (m.contains a && !(a == k)) := by
  induction m with
  | nil => simp [StrMap.erase, StrMap.contains]
  | cons e m ih =>
    simp only [StrMap.erase, StrMap.contains] at ih ⊢
    rw [List.filter_cons]
    by_cases h : e.1 = k
    · have hb : (e.1 == k) = true := by simpa using h
      simp only [hb, Bool.not_true, Bool.false_eq_true, if_false, ih, List.any_cons]
      by_cases h2 : a = k
      · have : (a == k) = true := by simpa using h2
        simp [this]
      · have h4 : (e.1 == a) = false := by
          rw [h]; simpa using fun h3 : k = a => h2 h3.symm
        simp [h4]
    · have hb : (e.1 == k) = false := by simpa using h
      simp only [hb, Bool.not_false, if_true, List.any_cons, ih]
      by_cases h3 : e.1 = a
      · have h4 : (e.1 == a) = true := by simpa using h3
        have h5 : (a == k) = false := by rw [← h3]; exact hb
        simp [h4, h5]
      · have h4 : (e.1 == a) = false := by simpa using h3
        simp [h4]

theorem StrMap.contains_emplace (m : StrMap) (k v a : Str) :
    (m.emplace k v).contains a = (m.contains a || a == k) := by
  unfold StrMap.emplace
  by_cases h : m.contains k = true
  · rw [if_pos h]
    by_cases h2 : a = k
    · subst h2; simp [h]
    · have : (a == k) = false := by simpa using h2
      simp [this]
  · rw [if_neg h]
    simp only [StrMap.contains, List.any_append, List.any_cons, List.any_nil, Bool.or_false]
    by_cases h2 : a = k
    · subst h2; simp
    · have h3 : (a == k) = false := by simpa using h2
      have h4 : (k == a) = false := by simpa using fun h5 : k = a => h2 h5.symm
      simp [h3, h4]

theorem StrMap.lookup_emplace (m : StrMap) (k v : Str) (h : m.contains k = false) :
    (m.emplace k v).lookup k = some v := by
  unfold StrMap.emplace
  rw [if_neg (by simp [h])]
  induction m with
  | nil => simp [StrMap.lookup]
  | cons e m ih =>
    simp only [StrMap.contains, List.any_cons, Bool.or_eq_false_iff] at h
    simp only [StrMap.lookup, List.cons_append, List.find?_cons, h.1] at ih ⊢
    exact ih h.2

theorem StrMap.contains_of_lookup (m : StrMap) (k v : Str) (h : m.lookup k = some v) :
    m.contains k = true := by
  induction m with
  | nil => simp [StrMap.lookup] at h
  | cons e m ih =>
    simp only [StrMap.contains, List.any_cons, Bool.or_eq_true]
    cases h1 : (e.1 == k) with
    | true => left; rfl
    | false =>
      right
      apply ih
      simpa [StrMap.lookup, List.find?_cons, h1] using h

/-! ## The window loops -/

theorem holders_cons (w : Workspace) (rest : List Workspace) (a : Str) :
    holders (w :: rest) a = if w.has_window a then w :: holders rest a else holders rest a := by
  simp [holders, List.filter_cons]

theorem closed_loop_cons (addr : Str) (w : Workspace) (rest : List Workspace) :
    closed_loop addr (w :: rest) =
      if w.window_map_.contains addr then
        (some ((w.window_map_.lookup addr).getD []),
          { w with window_map_ := w.window_map_.erase addr } :: rest)
      else ((closed_loop addr rest).1, w :: (closed_loop addr rest).2) := by
  by_cases h : w.window_map_.contains addr = true
  · simp [closed_loop, Workspace.on_window_closed, Workspace.remove_window, h]
  · simp [closed_loop, Workspace.on_window_closed, h]

theorem closed_loop_holders_le (addr a : Str) (reg : List Workspace) :
    (holders (closed_loop addr reg).2 a).length ≤ (holders reg a).length := by
  induction reg with
  | nil => simp [closed_loop]
  | cons w rest ih =>
    rw [closed_loop_cons]
    by_cases h : w.window_map_.contains addr = true
    · rw [if_pos h]
      simp only [holders_cons, Workspace.has_window, StrMap.contains_erase]
      by_cases h1 : w.window_map_.contains a = true <;>
        by_cases h2 : (a == addr) = true <;> simp [h1, h2]
    · rw [if_neg h]
      simp only [holders_cons]
      split <;> simp [ih]

theorem closed_loop_holders_self (addr : Str) (reg : List Workspace)
    (h : (holders reg addr).length ≤ 1) : holders (closed_loop addr reg).2 addr = [] := by
  induction reg with
  | nil => simp [closed_loop, holders]
  | cons w rest ih =>
    rw [closed_loop_cons]
    by_cases hc : w.window_map_.contains addr = true
    · rw [if_pos hc]
      rw [holders_cons] at h
      simp only [Workspace.has_window, hc, if_true, List.length_cons] at h
      have h0 : holders rest addr = [] := List.length_eq_zero.mp (by omega)
      simp [holders_cons, Workspace.has_window, StrMap.contains_erase, h0]
    · rw [if_neg hc]
      rw [holders_cons] at h ⊢
      simp only [Workspace.has_window, hc] at h ⊢
      exact ih h

theorem closed_loop_names (addr : Str) (reg : List Workspace) :
    (closed_loop addr reg).2.map (fun w => w.name_) = reg.map (fun w => w.name_) := by
  induction reg with
  | nil => simp [closed_loop]
  | cons w rest ih =>
    rw [closed_loop_cons]
    split <;> simp [ih]

theorem closed_loop_repr (addr r : Str) (reg : List Workspace)
    (h : (holders reg addr).length ≤ 1)
    (hsrc : ∃ w ∈ reg, w.window_map_.lookup addr = some r) :
    (closed_loop addr reg).1 = some r := by
  induction reg with
  | nil => simp at hsrc
  | cons w rest ih =>
    rw [closed_loop_cons]
    obtain ⟨w0, hw0, hl⟩ := hsrc
    by_cases hc : w.window_map_.contains addr = true
    · rw [if_pos hc]
      rw [holders_cons] at h
      simp only [Workspace.has_window, hc, if_true, List.length_cons] at h
      have h0 : holders rest addr = [] := List.length_eq_zero.mp (by omega)
      rcases List.mem_cons.mp hw0 with heq | hmem
      · subst heq; simp [hl]
      · exfalso
        have : w0 ∈ holders rest addr := by
          simp only [holders, List.mem_filter, Workspace.has_window]
          exact ⟨hmem, StrMap.contains_of_lookup _ _ _ hl⟩
        rw [h0] at this
        simp at this
    · rw [if_neg hc]
      rw [holders_cons] at h
      simp only [Workspace.has_window, hc] at h
      rcases List.mem_cons.mp hw0 with heq | hmem
      · subst heq
        exact absurd (StrMap.contains_of_lookup _ _ _ hl) hc
      · exact ih h ⟨w0, hmem, hl⟩

theorem moved_loop_cons (addr ws r : Str) (w : Workspace) (rest : List Workspace) :
    moved_loop addr ws r (w :: rest) =
      if ws = w.name_ then { w with window_map_ := w.window_map_.emplace addr r } :: rest
      else w :: moved_loop addr ws r rest := by
  by_cases h : ws = w.name_
  · simp [moved_loop, Workspace.on_window_opened_repr, h]
  · simp [moved_loop, Workspace.on_window_opened_repr, h]

theorem moved_loop_holders_ne (addr ws r a : Str) (hne : a ≠ addr) (reg : List Workspace) :
    (holders (moved_loop addr ws r reg) a).length = (holders reg a).length := by
  have hb : (a == addr) = false := by simpa using hne
  induction reg with
  | nil => simp [moved_loop]
  | cons w rest ih =>
    rw [moved_loop_cons]
    by_cases h : ws = w.name_
    · rw [if_pos h]
      simp only [holders_cons, Workspace.has_window, StrMap.contains_emplace, hb, Bool.or_false]
      split <;> simp
    · rw [if_neg h]
      simp only [holders_cons]
      split <;> simp [ih]

theorem moved_loop_holders_le (addr ws r : Str) (reg : List Workspace) :
    (holders (moved_loop addr ws r reg) addr).length ≤ (holders reg addr).length + 1 := by
  induction reg with
  | nil => simp [moved_loop]
  | cons w rest ih =>
    rw [moved_loop_cons]
    by_cases h : ws = w.name_
    · rw [if_pos h]
      simp only [holders_cons, Workspace.has_window, StrMap.contains_emplace]
      by_cases h1 : w.window_map_.contains addr = true <;> simp [h1]
    · rw [if_neg h]
      simp only [holders_cons]
      split
      · simp only [List.length_cons]; omega
      · omega

theorem moved_loop_fresh (addr ws r : Str) (reg : List Workspace)
    (h0 : holders reg addr = []) (hdst : ∃ w ∈ reg, w.name_ = ws) :
    (holders (moved_loop addr ws r reg) addr).length = 1 ∧
    ∀ w ∈ moved_loop addr ws r reg, w.has_window addr = true →
      w.name_ = ws ∧ w.window_map_.lookup addr = some r := by
  induction reg with
  | nil => simp at hdst
  | cons w rest ih =>
    rw [holders_cons] at h0
    have hw : w.has_window addr = false := by
      by_cases hc : w.has_window addr = true
      · rw [if_pos hc] at h0; cases h0
      · simpa using hc
    rw [hw] at h0
    simp only [Bool.false_eq_true, if_false] at h0
    rw [moved_loop_cons]
    by_cases h : ws = w.name_
    · rw [if_pos h]
      have hw1 : w.window_map_.contains addr = false := hw
      constructor
      · simp [holders_cons, Workspace.has_window, StrMap.contains_emplace, h0]
      · intro x hx hxa
        rcases List.mem_cons.mp hx with heq | hmem
        · subst heq
          exact ⟨h.symm, StrMap.lookup_emplace _ _ _ hw1⟩
        · exfalso
          have : x ∈ holders rest addr := by
            simp only [holders, List.mem_filter]
            exact ⟨hmem, hxa⟩
          rw [h0] at this
          simp at this
    · rw [if_neg h]
      obtain ⟨w0, hw0, hn⟩ := hdst
      have hrest : ∃ w ∈ rest, w.name_ = ws := by
        rcases List.mem_cons.mp hw0 with heq | hmem
        · subst heq; exact absurd hn.symm h
        · exact ⟨w0, hmem, hn⟩
      obtain ⟨ih1, ih2⟩ := ih h0 hrest
      constructor
      · simp [holders_cons, hw, ih1]
      · intro x hx hxa
        rcases List.mem_cons.mp hx with heq | hmem
        · subst heq; rw [hw] at hxa; cases hxa
        · exact ih2 x hmem hxa

/-! ## Splitting payloads -/

theorem findChar_first (c : Char) (a rest : Str) (h : c ∉ a) :
    findChar c (a ++ c :: rest) 0 = some a.length := by
  induction a with
  | nil => simp [findChar]
  | cons x a ih =>
    have hx : ¬ x = c := fun e => h (by simp [e])
    have ha : c ∉ a := fun e => h (by simp [e])
    simp [findChar, hx, ih ha]

theorem findChar_skip (c : Char) (pre s : Str) (k : Nat) :
    findChar c (pre ++ s) (pre.length + k) = (findChar c s k).map (· + pre.length) := by
  induction pre with
  | nil => simp
  | cons x pre ih =>
    have : (x :: pre).length + k = (pre.length + k) + 1 := by simp; omega
    rw [List.cons_append, this, findChar, ih]
    cases findChar c s k <;> simp
    omega

theorem split_first (a rest : Str) (h : ',' ∉ a) :
    substrTo (a ++ ',' :: rest) (findChar ',' (a ++ ',' :: rest) 0) = a ∧
    substrAfter (a ++ ',' :: rest) (findChar ',' (a ++ ',' :: rest) 0) = rest := by
  rw [findChar_first _ _ _ h]
  simp [substrTo, substrAfter, npos1]

/-! ## C4 -/

/-- C4: on a registry in which each address is in at most one window map, for a payload
`addr,ws` whose address field `addr` is in some workspace's map with display string `r` and
with some workspace named `ws`, after `on_window_moved` exactly one workspace holds `addr`,
every workspace holding it is named `ws`, and it maps `addr` to `r`. -/
theorem C4_on_window_moved_keeps_one_holder (s : Workspaces) (addr ws r : Str)
    (hfield : ',' ∉ addr)
    (huniq : addr_unique s.workspaces_)
    (hsrc : ∃ w ∈ s.workspaces_, w.window_map_.lookup addr = some r)
    (hdst : ∃ w ∈ s.workspaces_, w.name_ = ws) :
    (holders (s.on_window_moved (addr ++ ',' :: ws)).workspaces_ addr).length = 1 ∧
    ∀ w ∈ (s.on_window_moved (addr ++ ',' :: ws)).workspaces_, w.has_window addr = true →
      w.name_ = ws ∧ w.window_map_.lookup addr = some r := by
  obtain ⟨h1, h2⟩ := split_first addr ws hfield
  simp only [Workspaces.on_window_moved, h1, h2]
  rw [closed_loop_repr addr r s.workspaces_ (huniq addr) hsrc]
  apply moved_loop_fresh
  · exact closed_loop_holders_self addr s.workspaces_ (huniq addr)
  · obtain ⟨w, hw, hn⟩ := hdst
    have : ws ∈ (closed_loop addr s.workspaces_).2.map (fun w => w.name_) := by
      rw [closed_loop_names]
      exact List.mem_map.mpr ⟨w, hw, hn⟩
    obtain ⟨w1, hw1, hn1⟩ := List.mem_map.mp this
    exact ⟨w1, hw1, hn1⟩

theorem addr_unique_two_workspaces : addr_unique two_workspaces := by
  intro a
  simp only [holders, two_workspaces, List.filter_cons, Workspace.has_window, StrMap.contains,
    plain_workspace, List.any_cons, List.any_nil, Bool.or_false, List.filter_nil]
  split <;> simp

/-- C4 at the registry `ws1` (holding `AA` as `F`), `ws2` and the payload `AA,ws2`. -/
theorem C4_on_window_moved_keeps_one_holder_witness :
    addr_unique two_workspaces ∧
    (holders ({ base_state with workspaces_ := two_workspaces }.on_window_moved
        ("AA".toList ++ ',' :: "ws2".toList)).workspaces_ "AA".toList).length = 1 ∧
    ∀ w ∈ ({ base_state with workspaces_ := two_workspaces }.on_window_moved
        ("AA".toList ++ ',' :: "ws2".toList)).workspaces_, w.has_window "AA".toList = true →
      w.name_ = "ws2".toList ∧ w.window_map_.lookup "AA".toList = some "F".toList :=
  ⟨addr_unique_two_workspaces,
    C4_on_window_moved_keeps_one_holder { base_state with workspaces_ := two_workspaces }
      "AA".toList "ws2".toList "F".toList (by decide) addr_unique_two_workspaces
      ⟨_, List.mem_cons_self _ _, by decide⟩
      ⟨_, List.mem_cons_of_mem _ (List.mem_cons_self _ _), by decide⟩⟩

theorem insert_window_has_ne (rules : Str → Str × Bool) (dflt : Str) (cache : StrMap)
    (w : Workspace) (addr cls a : Str) (hne : a ≠ addr) :
    (w.insert_window rules dflt cache addr cls).1.has_window a = w.has_window a := by
  have hb : (a == addr) = false := by simpa using hne
  simp only [Workspace.insert_window]
  split
  · simp [Workspace.has_window, StrMap.contains_emplace, hb]
  · rfl

theorem opened_loop_cons (rules : Str → Str × Bool) (dflt : Str) (addr ws cls title : Str)
    (w : Workspace) (rest : List Workspace) (cache : StrMap) :
    opened_loop rules dflt addr ws cls title (w :: rest) cache =
      if ws = w.name_ then
        ((w.insert_window rules dflt cache addr cls).1 :: rest,
          (w.insert_window rules dflt cache addr cls).2)
      else
        (w :: (opened_loop rules dflt addr ws cls title rest cache).1,
          (opened_loop rules dflt addr ws cls title rest cache).2) := by
  by_cases h : ws = w.name_
  · simp [opened_loop, Workspace.on_window_opened, h]
  · simp [opened_loop, Workspace.on_window_opened, h]

theorem opened_loop_holders_ne (rules : Str → Str × Bool) (dflt : Str)
    (addr ws cls title a : Str) (hne : a ≠ addr) (reg : List Workspace) (cache : StrMap) :
    (holders (opened_loop rules dflt addr ws cls title reg cache).1 a).length
      = (holders reg a).length := by
  induction reg with
  | nil => simp [opened_loop]
  | cons w rest ih =>
    rw [opened_loop_cons]
    by_cases h : ws = w.name_
    · rw [if_pos h]
      simp only [holders_cons, insert_window_has_ne _ _ _ _ _ _ _ hne]
      split <;> simp
    · rw [if_neg h]
      simp only [holders_cons]
      split <;> simp [ih]

theorem opened_loop_holders_le (rules : Str → Str × Bool) (dflt : Str)
    (addr ws cls title : Str) (reg : List Workspace) (cache : StrMap) :
    (holders (opened_loop rules dflt addr ws cls title reg cache).1 addr).length
      ≤ (holders reg addr).length + 1 := by
  induction reg with
  | nil => simp [opened_loop]
  | cons w rest ih =>
    rw [opened_loop_cons]
    by_cases h : ws = w.name_
    · rw [if_pos h]
      simp only [holders_cons]
      split <;> split <;> (try simp only [List.length_cons]) <;> omega
    · rw [if_neg h]
      simp only [holders_cons]
      split
      · simp only [List.length_cons]; omega
      · omega

/-! ## C5 -/

/-- C5, counterexample: with window `AA` in the map of `ws1`, the payload
`AA,ws2,firefox,T` makes `on_window_opened` insert `AA` into the map of `ws2` as well. -/
theorem C5_on_window_opened_duplicates_address :
    addr_unique two_workspaces ∧
    ¬ addr_unique ({ base_state with workspaces_ := two_workspaces }.on_window_opened
        "AA,ws2,firefox,T".toList).workspaces_ := by
  refine ⟨addr_unique_two_workspaces, fun h => ?_⟩
  have h1 := h "AA".toList
  revert h1
  decide

/-- C5, amended: on a registry in which each address is in at most one window map,
`on_window_closed` and `on_window_moved` keep it so for every payload, and
`on_window_opened` keeps it so for every payload whose address field is in no window map
yet. -/
theorem C5_window_handlers_keep_addresses_unique (s : Workspaces) (payload : Str)
    (huniq : addr_unique s.workspaces_) :
    addr_unique (s.on_window_closed payload).workspaces_ ∧
    addr_unique (s.on_window_moved payload).workspaces_ ∧
    (holders s.workspaces_ (substrTo payload (findChar ',' payload 0)) = [] →
      addr_unique (s.on_window_opened payload).workspaces_) := by
  refine ⟨fun a => ?_, fun a => ?_, fun h0 a => ?_⟩
  · exact Nat.le_trans (closed_loop_holders_le payload a s.workspaces_) (huniq a)
  · simp only [Workspaces.on_window_moved]
    by_cases ha : a = substrTo payload (findChar ',' payload 0)
    · subst ha
      have h1 := closed_loop_holders_self (substrTo payload (findChar ',' payload 0))
        s.workspaces_ (huniq _)
      have h2 := moved_loop_holders_le (substrTo payload (findChar ',' payload 0))
        (substrAfter payload (findChar ',' payload 0))
        ((closed_loop (substrTo payload (findChar ',' payload 0)) s.workspaces_).1.getD [])
        (closed_loop (substrTo payload (findChar ',' payload 0)) s.workspaces_).2
      rw [h1] at h2
      simpa using h2
    · rw [moved_loop_holders_ne _ _ _ _ ha]
      exact Nat.le_trans (closed_loop_holders_le _ a s.workspaces_) (huniq a)
  · simp only [Workspaces.on_window_opened]
    by_cases ha : a = substrTo payload (findChar ',' payload 0)
    · subst ha
      have h2 := opened_loop_holders_le s.window_rewrite_rules_ s.window_rewrite_default_
        (substrTo payload (findChar ',' payload 0))
        (substrBetween payload (findChar ',' payload 0)
          (findChar ',' payload (npos1 (findChar ',' payload 0))))
        (substrBetween payload (findChar ',' payload (npos1 (findChar ',' payload 0)))
          (findChar ',' payload (npos1 (findChar ',' payload (npos1 (findChar ',' payload 0))))))
        (substrAfter payload
          (findChar ',' payload (npos1 (findChar ',' payload (npos1 (findChar ',' payload 0))))))
        s.workspaces_ s.regex_cache_
      rw [h0] at h2
      simpa using h2
    · rw [opened_loop_holders_ne _ _ _ _ _ _ _ ha]
      exact huniq a

/-- C5, amended, at the registry `ws1` (holding `AA`), `ws2` and the payload
`BB,ws2,firefox,T`. -/
theorem C5_window_handlers_keep_addresses_unique_witness :
    addr_unique two_workspaces ∧
    holders two_workspaces (substrTo "BB,ws2,firefox,T".toList
      (findChar ',' "BB,ws2,firefox,T".toList 0)) = [] ∧
    addr_unique ({ base_state with workspaces_ := two_workspaces }.on_window_opened
      "BB,ws2,firefox,T".toList).workspaces_ :=
  ⟨addr_unique_two_workspaces, by decide,
    (C5_window_handlers_keep_addresses_unique { base_state with workspaces_ := two_workspaces }
      "BB,ws2,firefox,T".toList addr_unique_two_workspaces).2.2 (by decide)⟩

/-! ## C6 -/

/-- C6: a duplicated `createworkspace` event gives two active workspaces. After
`workspace>>dev` and two `createworkspace>>dev` events, each followed by a tick, with the
query reply listing `dev`, the registry holds two workspaces named `dev` and both have
`active = true`. -/
theorem C6_duplicated_create_gives_two_active :
    (run [Step.event dev_reply "workspace>>dev".toList, Step.tick dev_reply,
        Step.event dev_reply "createworkspace>>dev".toList, Step.tick dev_reply,
        Step.event dev_reply "createworkspace>>dev".toList, Step.tick dev_reply]
      base_state).map (fun s => (s.workspaces_.map (fun w => (w.name_, w.active_)),
        active_count s.workspaces_))
      = some ([("dev".toList, true), ("dev".toList, true)], 2) := by
  decide

/-! ## The sort -/

theorem sort_comp_isSome (sb : SORT_METHOD) (a b : Workspace)
    (h : sb = SORT_METHOD.NUMBER →
      stoi a.name_ ≠ StoiResult.out_of_range ∧ stoi b.name_ ≠ StoiResult.out_of_range) :
    ∃ r, sort_comp sb a b = some r := by
  cases sb with
  | ID => exact ⟨_, rfl⟩
  | NAME => exact ⟨_, rfl⟩
  | DEFAULT => exact ⟨_, rfl⟩
  | NUMBER =>
    obtain ⟨ha, hb⟩ := h rfl
    unfold sort_comp
    cases hsa : stoi a.name_ with
    | invalid_argument => exact ⟨_, rfl⟩
    | out_of_range => exact absurd hsa ha
    | ok x =>
      cases hsb : stoi b.name_ with
      | invalid_argument => exact ⟨_, rfl⟩
      | out_of_range => exact absurd hsb hb
      | ok y => exact ⟨_, rfl⟩

theorem linear_insert_some_perm (sb : SORT_METHOD) (x : Workspace) (l r : List Workspace)
    (h : linear_insert sb x l = some r) : r.Perm (x :: l) := by
  induction l generalizing r with
  | nil =>
    simp only [linear_insert, Option.some.injEq] at h
    rw [← h]
  | cons y ys ih =>
    simp only [linear_insert] at h
    cases hc : sort_comp sb x y with
    | none => rw [hc] at h; cases h
    | some c =>
      rw [hc] at h
      cases c with
      | false =>
        simp only [Option.some.injEq] at h
        rw [← h]
      | true =>
        cases hr : linear_insert sb x ys with
        | none => rw [hr] at h; cases h
        | some r1 =>
          rw [hr] at h
          simp only [Option.map_some', Option.some.injEq] at h
          rw [← h]
          exact (List.Perm.cons y (ih r1 hr)).trans (List.Perm.swap x y ys)

theorem sort_insert_some_perm (sb : SORT_METHOD) (x : Workspace) (l r : List Workspace)
    (h : sort_insert sb x l = some r) : r.Perm (x :: l) := by
  cases l with
  | nil =>
    simp only [sort_insert, Option.some.injEq] at h
    rw [← h]
  | cons y ys =>
    simp only [sort_insert] at h
    cases hc : sort_comp sb x y with
    | none => rw [hc] at h; cases h
    | some c =>
      rw [hc] at h
      cases c with
      | true =>
        simp only [Option.some.injEq] at h
        rw [← h]
      | false =>
        cases hr : linear_insert sb x (y :: ys).reverse with
        | none => rw [hr] at h; cases h
        | some r1 =>
          rw [hr] at h
          simp only [Option.map_some', Option.some.injEq] at h
          rw [← h]
          have h1 := linear_insert_some_perm sb x _ r1 hr
          exact (List.reverse_perm r1).trans
            (h1.trans (List.Perm.cons x (List.reverse_perm (y :: ys))))

theorem sort_from_some_perm (sb : SORT_METHOD) (l sorted r : List Workspace)
    (h : sort_from sb sorted l = some r) : r.Perm (sorted ++ l) := by
  induction l generalizing sorted r with
  | nil =>
    simp only [sort_from, Option.some.injEq] at h
    rw [← h]; simp
  | cons x xs ih =>
    simp only [sort_from] at h
    cases hs : sort_insert sb x sorted with
    | none => rw [hs] at h; cases h
    | some s1 =>
      rw [hs] at h
      have h1 := ih s1 r h
      have h2 := sort_insert_some_perm sb x sorted s1 hs
      refine h1.trans ((List.Perm.append_right xs h2).trans ?_)
      simp only [List.cons_append]
      exact List.perm_middle.symm

theorem sort_workspaces_some_perm (sb : SORT_METHOD) (l r : List Workspace)
    (h : sort_workspaces sb l = some r) : r.Perm l := by
  have := sort_from_some_perm sb l [] r h
  simpa using this

theorem linear_insert_isSome (sb : SORT_METHOD) (x : Workspace) (l : List Workspace)
    (h : sort_safe sb (x :: l)) : ∃ r, linear_insert sb x l = some r := by
  induction l with
  | nil => exact ⟨[x], rfl⟩
  | cons y ys ih =>
    obtain ⟨c, hc⟩ := sort_comp_isSome sb x y (fun e => ⟨h e x (by simp), h e y (by simp)⟩)
    have hys : sort_safe sb (x :: ys) := fun e z hz => h e z (by
      rcases List.mem_cons.mp hz with hz | hz
      · simp [hz]
      · simp [hz])
    obtain ⟨r, hr⟩ := ih hys
    cases c with
    | true => exact ⟨y :: r, by simp [linear_insert, hc, hr]⟩
    | false => exact ⟨x :: y :: ys, by simp [linear_insert, hc]⟩

theorem sort_insert_isSome (sb : SORT_METHOD) (x : Workspace) (l : List Workspace)
    (h : sort_safe sb (x :: l)) : ∃ r, sort_insert sb x l = some r := by
  cases l with
  | nil => exact ⟨[x], rfl⟩
  | cons y ys =>
    obtain ⟨c, hc⟩ := sort_comp_isSome sb x y (fun e => ⟨h e x (by simp), h e y (by simp)⟩)
    cases c with
    | true => exact ⟨x :: y :: ys, by simp [sort_insert, hc]⟩
    | false =>
      have hrev : sort_safe sb (x :: (y :: ys).reverse) := fun e z hz => h e z (by
        rcases List.mem_cons.mp hz with hz | hz
        · simp [hz]
        · exact List.mem_cons_of_mem _ (List.mem_reverse.mp hz))
      obtain ⟨r, hr⟩ := linear_insert_isSome sb x _ hrev
      exact ⟨r.reverse, by simp only [sort_insert, hc, hr, Option.map_some']⟩

theorem sort_from_isSome (sb : SORT_METHOD) (l sorted : List Workspace)
    (h : sort_safe sb (sorted ++ l)) : ∃ r, sort_from sb sorted l = some r := by
  induction l generalizing sorted with
  | nil => exact ⟨sorted, rfl⟩
  | cons x xs ih =>
    have hx : sort_safe sb (x :: sorted) := fun e z hz => h e z (by
      rcases List.mem_cons.mp hz with hz | hz
      · simp [hz]
      · simp [hz])
    obtain ⟨s1, hs1⟩ := sort_insert_isSome sb x sorted hx
    have hp := sort_insert_some_perm sb x sorted s1 hs1
    have hrest : sort_safe sb (s1 ++ xs) := fun e z hz => h e z (by
      rcases List.mem_append.mp hz with hz | hz
      · rcases List.mem_cons.mp (hp.mem_iff.mp hz) with hz1 | hz1
        · simp [hz1]
        · simp [hz1]
      · simp [hz])
    obtain ⟨r, hr⟩ := ih s1 hrest
    exact ⟨r, by simp [sort_from, hs1, hr]⟩

theorem sort_workspaces_perm (sb : SORT_METHOD) (l : List Workspace) (h : sort_safe sb l) :
    ∃ r, sort_workspaces sb l = some r ∧ r.Perm l := by
  obtain ⟨r, hr⟩ := sort_from_isSome sb l [] (by simpa using h)
  exact ⟨r, hr, sort_workspaces_some_perm sb l r hr⟩

/-! ## C7 -/

theorem remove_workspace_of_first_persistent (s : Workspaces) (n : Str)
    (hfirst : ∀ w, s.workspaces_.find? (name_matches n) = some w → w.is_persistent_ = true) :
    s.remove_workspace n = s := by
  unfold Workspaces.remove_workspace
  cases h : s.workspaces_.find? (name_matches n) with
  | none => rfl
  | some w => simp [hfirst w h]

theorem construct_no_clients (rules : Str → Str × Bool) (dflt : Str) (cache : StrMap)
    (data : WorkspaceData) (nm : Str) (sp : Bool)
    (hnorm : normalize_name data.id data.name = some (nm, sp)) :
    Workspace.construct rules dflt cache data [] =
      some ({ id_ := data.id, name_ := nm, output_ := data.monitor,
              windows_ := (data.windows % 4294967296).toNat, active_ := true,
              is_special_ := sp, is_persistent_ := data.persistent.getD false,
              is_urgent_ := false, is_visible_ := false, window_map_ := [] }, cache) := by
  simp [Workspace.construct, hnorm, Workspace.initialize_window_map, initialize_window_map_loop]

theorem name_matches_record (n : Str) (data : WorkspaceData) (p : Workspace)
    (hpn : p.name_ = n) (hdata : data.name = n ∨ data.name = "special:".toList ++ n) :
    name_matches data.name p = true := by
  rcases hdata with h | h
  · simp [name_matches, h, hpn]
  · have h1 : starts_with ("special:".toList ++ n) "special:".toList = true := by
      simp [starts_with]
    have h2 : ("special:".toList ++ n).drop 8 = n := by
      have : "special:".toList.length = 8 := by decide
      rw [← this, List.drop_left]
    unfold name_matches
    rw [h, h1, h2, hpn]
    simp

/-- C7, counterexample: in the registry of a non-persistent `dev` followed by a persistent
`dev`, the destroy of `dev` removes the first one and the creation of `dev` replaces the
persistent one: two workspaces become one. Under NUMBER, with a persistent workspace whose
name is out of the range of `int`, the creation's sort throws and no registry results. -/
theorem C7_destroy_then_create_can_shrink_registry :
    (∃ p ∈ dev_twice, p.is_persistent_ = true ∧ p.name_ = "dev".toList) ∧
    registry (({ base_state with workspaces_ := dev_twice }.remove_workspace
        "dev".toList).create_workspace dev_record [])
      = some [{ plain_workspace (-1337) "dev" false with
                active_ := true, is_persistent_ := true }] ∧
    registry ((overflow_state.remove_workspace "99999999999".toList).create_workspace
        overflow_record []) = none := by
  refine ⟨⟨_, List.mem_cons_of_mem _ (List.mem_cons_self _ _), by decide, by decide⟩, ?_, ?_⟩
  · decide
  · decide

/-- C7, amended: when the registry holds a persistent workspace named `n`, the first
workspace the removal lookup matches for `n` is persistent, and the creation raises no
error (the record's name normalises and, under NUMBER, no name is out of the range of
`int`), a destroy of `n` followed by a creation whose record is named `n` or `special:n`
leaves the registry with the same number of workspaces: the first persistent workspace
the record's name matches is erased and one workspace built from the record is added,
with `persistent = true` whatever the record carried. -/
theorem C7_destroy_then_create_replaces_persistent (s : Workspaces) (n : Str)
    (data : WorkspaceData) (p : Workspace) (nm : Str) (sp : Bool)
    (hp : p ∈ s.workspaces_) (hpp : p.is_persistent_ = true) (hpn : p.name_ = n)
    (hdata : data.name = n ∨ data.name = "special:".toList ++ n)
    (hfirst : ∀ w, s.workspaces_.find? (name_matches n) = some w → w.is_persistent_ = true)
    (hnorm : normalize_name data.id data.name = some (nm, sp))
    (hsafe : s.sort_by_ = SORT_METHOD.NUMBER →
      (∀ x ∈ s.workspaces_, stoi x.name_ ≠ StoiResult.out_of_range) ∧
      stoi nm ≠ StoiResult.out_of_range) :
    ∃ s1 w,
      (s.remove_workspace n).create_workspace data [] = some s1 ∧
      Workspace.construct s.window_rewrite_rules_ s.window_rewrite_default_ s.regex_cache_
        { data with persistent := some true } [] = some (w, s.regex_cache_) ∧
      w.is_persistent_ = true ∧
      s1.workspaces_.Perm
        (s.workspaces_.eraseP (fun x => x.is_persistent_ && name_matches data.name x) ++ [w]) ∧
      s1.workspaces_.length = s.workspaces_.length := by
  rw [remove_workspace_of_first_persistent s n hfirst]
  have hmatch : (p.is_persistent_ && name_matches data.name p) = true := by
    rw [hpp, name_matches_record n data p hpn hdata]; rfl
  have hfound : (s.workspaces_.find?
      (fun x => x.is_persistent_ && name_matches data.name x)).isSome = true := by
    rw [List.find?_isSome]
    exact ⟨p, hp, hmatch⟩
  have hcons := construct_no_clients s.window_rewrite_rules_ s.window_rewrite_default_
    s.regex_cache_ { data with persistent := some true } nm sp hnorm
  have hsort : sort_safe s.sort_by_
      (s.workspaces_.eraseP (fun x => x.is_persistent_ && name_matches data.name x) ++
        [{ id_ := data.id, name_ := nm, output_ := data.monitor,
           windows_ := (data.windows % 4294967296).toNat, active_ := true,
           is_special_ := sp, is_persistent_ := true,
           is_urgent_ := false, is_visible_ := false, window_map_ := [] }]) := by
    intro e x hx
    rcases List.mem_append.mp hx with hx | hx
    · exact (hsafe e).1 x (List.mem_of_mem_eraseP hx)
    · rw [List.mem_singleton.mp hx]
      exact (hsafe e).2
  obtain ⟨r, hr, hperm⟩ := sort_workspaces_perm _ _ hsort
  refine ⟨{ s with workspaces_ := r }, _, ?_, hcons, rfl, hperm, ?_⟩
  · simp only [Workspaces.create_workspace, hfound, if_true]
    rw [hcons]
    simp only [Option.getD_some]
    rw [hr]
  · have hlen := hperm.length_eq
    have h1 : (s.workspaces_.eraseP
        (fun x => x.is_persistent_ && name_matches data.name x)).length
        = s.workspaces_.length - 1 := List.length_eraseP_of_mem hp hmatch
    have h2 : 0 < s.workspaces_.length := List.length_pos_of_mem hp
    simp only [List.length_append, List.length_singleton] at hlen
    show r.length = s.workspaces_.length
    omega

/-- C7, amended, at the registry holding the persistent placeholder `dev` alone and the
compositor's record of `dev`, which carries no `persistent` member. -/
theorem C7_destroy_then_create_replaces_persistent_witness :
    ∃ s1 w,
      ({ base_state with workspaces_ := [persistent_dev] }.remove_workspace
        "dev".toList).create_workspace dev_record [] = some s1 ∧
      Workspace.construct base_state.window_rewrite_rules_ base_state.window_rewrite_default_
        base_state.regex_cache_ { dev_record with persistent := some true } []
          = some (w, base_state.regex_cache_) ∧
      w.is_persistent_ = true ∧
      s1.workspaces_.Perm
        ([persistent_dev].eraseP
          (fun x => x.is_persistent_ && name_matches dev_record.name x) ++ [w]) ∧
      s1.workspaces_.length = [persistent_dev].length :=
  C7_destroy_then_create_replaces_persistent
    { base_state with workspaces_ := [persistent_dev] } "dev".toList dev_record persistent_dev
    "dev".toList false (List.mem_cons_self _ _) (by decide) (by decide) (Or.inl (by decide))
    (fun w h => by
      have h1 : ({ base_state with workspaces_ := [persistent_dev] } : Workspaces).workspaces_.find?
          (name_matches "dev".toList) = some persistent_dev := by decide
      rw [h1] at h
      cases h
      decide)
    (by decide) (fun e => absurd e (by decide))

/-! ## Decoding an event line -/

theorem onEvent_split (s : Workspaces) (reply : IPCReply) (name payload : Str) (d : Char)
    (h : '>' ∉ name) :
    s.onEvent reply (name ++ '>' :: d :: payload) = handle_event s reply name payload := by
  unfold Workspaces.onEvent
  rw [findChar_first _ _ _ h]
  have h1 : (name ++ '>' :: d :: payload).take name.length = name := by simp
  simp only [h1]
  have h2 : substrFrom (name ++ '>' :: d :: payload) (name.length + 2) = some payload := by
    unfold substrFrom
    have h3 : name.length + 2 ≤ (name ++ '>' :: d :: payload).length := by simp
    rw [if_pos h3]
    have h4 : name ++ '>' :: d :: payload = (name ++ ['>', d]) ++ payload := by simp
    have h5 : name.length + 2 = (name ++ ['>', d]).length := by simp
    rw [h4, h5, List.drop_left]
  rw [h2]

theorem isDoubleSpecial_of_contains (pre post : Str) :
    isDoubleSpecial (pre ++ "special:special:".toList ++ post) = true := by
  unfold isDoubleSpecial
  induction pre with
  | nil =>
    have : findStr "special:special:".toList ([] ++ "special:special:".toList ++ post)
        = some 0 := by
      simp [findStr]
    rw [this]; rfl
  | cons x pre ih =>
    simp only [List.cons_append, findStr]
    split
    · rfl
    · simpa using ih

theorem handle_event_create_doubled (s : Workspaces) (reply : IPCReply) (payload : Str)
    (h : isDoubleSpecial payload = true) :
    handle_event s reply "createworkspace".toList payload = some s := by
  have : created_record s reply.workspaces payload = none := by
    unfold created_record
    rw [List.find?_eq_none]
    intro x _
    simp [h]
  unfold handle_event
  rw [if_neg (by decide), if_neg (by decide), if_pos (by decide), this]

theorem handle_event_destroy_doubled (s : Workspaces) (reply : IPCReply) (payload : Str)
    (h : isDoubleSpecial payload = true) :
    handle_event s reply "destroyworkspace".toList payload = some s := by
  unfold handle_event
  rw [if_neg (by decide), if_pos (by decide)]
  simp [h]

theorem onEvent_doubled_special (s : Workspaces) (reply : IPCReply) (ev : Str)
    (h : doubled_special_step (Step.event reply ev)) : s.onEvent reply ev = some s := by
  obtain ⟨pre, post, h | h⟩ := h
  · have h1 : ev = "createworkspace".toList ++ '>' :: '>' ::
        (pre ++ "special:special:".toList ++ post) := by rw [h]; rfl
    rw [h1, onEvent_split _ _ _ _ _ (by decide)]
    exact handle_event_create_doubled s reply _ (isDoubleSpecial_of_contains pre post)
  · have h1 : ev = "destroyworkspace".toList ++ '>' :: '>' ::
        (pre ++ "special:special:".toList ++ post) := by rw [h]; rfl
    rw [h1, onEvent_split _ _ _ _ _ (by decide)]
    exact handle_event_destroy_doubled s reply _ (isDoubleSpecial_of_contains pre post)

theorem update_loop_length (active : Str) (visible : List Str) (with_icon : Bool)
    (reg : List Workspace) (icons : StrMap) :
    (update_loop active visible with_icon reg icons).1.length = reg.length := by
  induction reg generalizing icons with
  | nil => rfl
  | cons w rest ih => simp [update_loop, ih]

theorem update_no_pending (s : Workspaces) (reply : IPCReply)
    (h1 : s.workspaces_to_remove_ = []) (h2 : s.workspaces_to_create_ = []) :
    ∃ s1, s.update reply = some s1 ∧ s1.workspaces_.length = s.workspaces_.length ∧
      s1.workspaces_to_remove_ = [] ∧ s1.workspaces_to_create_ = [] := by
  unfold Workspaces.update
  simp only [h1, h2, List.foldl_nil, create_all]
  exact ⟨_, rfl, update_loop_length _ _ _ _ _, rfl, rfl⟩

/-! ## C8 -/

/-- C8: for every sequence of ticks and of `createworkspace` and `destroyworkspace` events
whose payloads contain `special:special:`, and every query reply, each event leaves the
state, and so both pending queues, as they were; run from empty queues, the sequence ends
with as many workspaces in the registry as before it, and with empty queues. -/
theorem C8_doubled_special_events_keep_registry_size (steps : List Step) (s : Workspaces)
    (hsteps : ∀ st ∈ steps, doubled_special_step st)
    (hr : s.workspaces_to_remove_ = []) (hc : s.workspaces_to_create_ = []) :
    (∀ reply ev, Step.event reply ev ∈ steps → ∀ t : Workspaces, t.onEvent reply ev = some t) ∧
    ∃ s1, run steps s = some s1 ∧ s1.workspaces_.length = s.workspaces_.length ∧
      s1.workspaces_to_remove_ = [] ∧ s1.workspaces_to_create_ = [] := by
  constructor
  · intro reply ev hmem t
    exact onEvent_doubled_special t reply ev (hsteps _ hmem)
  · induction steps generalizing s with
    | nil => exact ⟨s, rfl, rfl, hr, hc⟩
    | cons st rest ih =>
      have hrest : ∀ st1 ∈ rest, doubled_special_step st1 :=
        fun st1 h => hsteps st1 (List.mem_cons_of_mem _ h)
      cases st with
      | event reply ev =>
        have h1 := onEvent_doubled_special s reply ev (hsteps _ (List.mem_cons_self _ _))
        simp only [run, h1]
        exact ih s hrest hr hc
      | tick reply =>
        obtain ⟨s1, h1, hlen, hr1, hc1⟩ := update_no_pending s reply hr hc
        simp only [run, h1]
        obtain ⟨s2, h2, hlen2, hr2, hc2⟩ := ih s1 hrest hr1 hc1
        exact ⟨s2, h2, hlen2.trans hlen, hr2, hc2⟩

/-- C8 at the registry `ws1`, `ws2`: a creation and a destruction of `special:special:x`,
each followed by a tick, with a query reply that lists `special:special:x`. -/
theorem C8_doubled_special_events_keep_registry_size_witness :
    (∀ reply ev, Step.event reply ev ∈ doubled_steps →
      ∀ t : Workspaces, t.onEvent reply ev = some t) ∧
    ∃ s1, run doubled_steps { base_state with workspaces_ := two_workspaces } = some s1 ∧
      s1.workspaces_.length = two_workspaces.length ∧
      s1.workspaces_to_remove_ = [] ∧ s1.workspaces_to_create_ = [] :=
  C8_doubled_special_events_keep_registry_size doubled_steps
    { base_state with workspaces_ := two_workspaces }
    (fun st h => by
      simp only [doubled_steps, List.mem_cons, List.mem_singleton, List.not_mem_nil,
        or_false] at h
      rcases h with h | h | h | h <;> subst h
      · exact ⟨[], "x".toList, Or.inl (by decide)⟩
      · trivial
      · exact ⟨[], "x".toList, Or.inr (by decide)⟩
      · trivial)
    rfl rfl

/-! ## C9 -/

theorem rename_loop_first (wid : Int) (new_name active : Str) (reg : List Workspace)
    (hmem : ∃ w ∈ reg, w.id_ = wid) :
    ∃ pre w post, reg = pre ++ w :: post ∧ (∀ x ∈ pre, x.id_ ≠ wid) ∧ w.id_ = wid ∧
      rename_loop wid new_name reg active =
        (pre ++ { w with name_ := new_name } :: post,
          if w.name_ = active then new_name else active) := by
  induction reg with
  | nil => simp at hmem
  | cons x rest ih =>
    by_cases hx : x.id_ = wid
    · exact ⟨[], x, rest, rfl, by simp, hx, by simp [rename_loop, hx]⟩
    · obtain ⟨w0, hw0, hid⟩ := hmem
      have hrest : ∃ w ∈ rest, w.id_ = wid := by
        rcases List.mem_cons.mp hw0 with heq | hm
        · subst heq; exact absurd hid hx
        · exact ⟨w0, hm, hid⟩
      obtain ⟨pre, w, post, h1, h2, h3, h4⟩ := ih hrest
      refine ⟨x :: pre, w, post, by simp [h1], ?_, h3, ?_⟩
      · intro y hy
        rcases List.mem_cons.mp hy with heq | hm
        · subst heq; exact hx
        · exact h2 y hm
      · simp [rename_loop, hx, h4]

theorem handle_event_rename (s : Workspaces) (reply : IPCReply) (payload : Str) (wid : Int)
    (hid : (substrTo payload (findChar ',' payload 0) = "special".toList ∧ wid = -99) ∨
      (substrTo payload (findChar ',' payload 0) ≠ "special".toList ∧
        stoi (substrTo payload (findChar ',' payload 0)) = StoiResult.ok wid)) :
    handle_event s reply "renameworkspace".toList payload =
      some { s with
        workspaces_ := (rename_loop wid (substrAfter payload (findChar ',' payload 0))
          s.workspaces_ s.active_workspace_name_).1
        active_workspace_name_ := (rename_loop wid
          (substrAfter payload (findChar ',' payload 0))
          s.workspaces_ s.active_workspace_name_).2 } := by
  unfold handle_event
  rw [if_neg (by decide), if_neg (by decide), if_neg (by decide), if_neg (by decide),
    if_neg (fun h => absurd h.1 (by decide)), if_neg (by decide), if_neg (by decide),
    if_neg (by decide), if_neg (by decide), if_pos (by decide)]
  rcases hid with ⟨h1, h2⟩ | ⟨h1, h2⟩
  · simp only [h1, h2, if_true]
  · simp only [h1, h2, if_false]

/-- C9: for every `renameworkspace` event `id,newname` whose id field (read as the code
reads it: `special` for -99, a decimal otherwise) is the id of a workspace of the registry,
the first workspace of that id is renamed to `newname` and nothing else in the registry
changes; the active-name pointer becomes `newname` when it equalled that workspace's old
name and is unchanged otherwise. -/
theorem C9_rename_follows_active_pointer (s : Workspaces) (reply : IPCReply)
    (idstr newname : Str) (wid : Int)
    (hfield : ',' ∉ idstr)
    (hid : (idstr = "special".toList ∧ wid = -99) ∨
      (idstr ≠ "special".toList ∧ stoi idstr = StoiResult.ok wid))
    (hmem : ∃ w ∈ s.workspaces_, w.id_ = wid) :
    ∃ s1 pre w post,
      s.onEvent reply ("renameworkspace>>".toList ++ (idstr ++ ',' :: newname)) = some s1 ∧
      s.workspaces_ = pre ++ w :: post ∧ (∀ x ∈ pre, x.id_ ≠ wid) ∧ w.id_ = wid ∧
      s1.workspaces_ = pre ++ { w with name_ := newname } :: post ∧
      (w.name_ = s.active_workspace_name_ → s1.active_workspace_name_ = newname) ∧
      (w.name_ ≠ s.active_workspace_name_ →
        s1.active_workspace_name_ = s.active_workspace_name_) := by
  have hline : "renameworkspace>>".toList ++ (idstr ++ ',' :: newname)
      = "renameworkspace".toList ++ '>' :: '>' :: (idstr ++ ',' :: newname) := rfl
  obtain ⟨h1, h2⟩ := split_first idstr newname hfield
  obtain ⟨pre, w, post, hreg, hpre, hw, hloop⟩ :=
    rename_loop_first wid newname s.active_workspace_name_ s.workspaces_ hmem
  rw [hline, onEvent_split _ _ _ _ _ (by decide),
    handle_event_rename s reply _ wid (by rw [h1]; exact hid), h2, hloop]
  refine ⟨_, pre, w, post, rfl, hreg, hpre, hw, rfl, ?_, ?_⟩
  · intro h; simp [h]
  · intro h; simp [h]

/-- C9 at the registry `ws1` (id 1), `ws2` (id 2) with active name `ws2`, for the event
`renameworkspace>>2,web`. -/
theorem C9_rename_follows_active_pointer_witness :
    ∃ s1 pre w post,
      ({ base_state with workspaces_ := two_workspaces
                         active_workspace_name_ := "ws2".toList } : Workspaces).onEvent empty_reply
        ("renameworkspace>>".toList ++ ("2".toList ++ ',' :: "web".toList)) = some s1 ∧
      two_workspaces = pre ++ w :: post ∧ (∀ x ∈ pre, x.id_ ≠ 2) ∧ w.id_ = 2 ∧
      s1.workspaces_ = pre ++ { w with name_ := "web".toList } :: post ∧
      (w.name_ = "ws2".toList → s1.active_workspace_name_ = "web".toList) ∧
      (w.name_ ≠ "ws2".toList → s1.active_workspace_name_ = "ws2".toList) :=
  C9_rename_follows_active_pointer
    { base_state with workspaces_ := two_workspaces
                      active_workspace_name_ := "ws2".toList }
    empty_reply "2".toList "web".toList 2 (by decide) (Or.inr ⟨by decide, by decide⟩)
    ⟨_, List.mem_cons_of_mem _ (List.mem_cons_self _ _), by decide⟩

/-! ## C10 -/

theorem findChar_second (a b rest : Str) (hb : ',' ∉ b) :
    findChar ',' (a ++ ',' :: (b ++ ',' :: rest)) (a.length + 1)
      = some (a.length + 1 + b.length) := by
  have h1 : a ++ ',' :: (b ++ ',' :: rest) = (a ++ [',']) ++ (b ++ ',' :: rest) := by simp
  have h2 : a.length + 1 = (a ++ [',']).length + 0 := by simp
  rw [h1, h2, findChar_skip, findChar_first _ _ _ hb]
  simp
  omega

theorem substrBetween_field (a b rest : Str) :
    substrBetween (a ++ ',' :: (b ++ ',' :: rest)) (some a.length)
      (some (a.length + 1 + b.length)) = b := by
  have h1 : a.length + 1 ≤ a.length + 1 + b.length := by omega
  simp only [substrBetween]
  rw [if_pos h1]
  have h2 : a ++ ',' :: (b ++ ',' :: rest) = (a ++ [',']) ++ (b ++ ',' :: rest) := by simp
  have h3 : a.length + 1 = (a ++ [',']).length := by simp
  have h4 : a.length + 1 + b.length - a.length - 1 = b.length := by omega
  rw [h4, h2, h3, List.drop_left]
  simp

theorem on_window_opened_fields (s : Workspaces) (a ws c t : Str)
    (ha : ',' ∉ a) (hws : ',' ∉ ws) (hc : ',' ∉ c) :
    s.on_window_opened (a ++ ',' :: (ws ++ ',' :: (c ++ ',' :: t))) =
      { s with
        workspaces_ := (opened_loop s.window_rewrite_rules_ s.window_rewrite_default_
          a ws c t s.workspaces_ s.regex_cache_).1
        regex_cache_ := (opened_loop s.window_rewrite_rules_ s.window_rewrite_default_
          a ws c t s.workspaces_ s.regex_cache_).2 } := by
  have n1 : findChar ',' (a ++ ',' :: (ws ++ ',' :: (c ++ ',' :: t))) 0 = some a.length :=
    findChar_first _ _ _ ha
  have n2 : findChar ',' (a ++ ',' :: (ws ++ ',' :: (c ++ ',' :: t))) (a.length + 1)
      = some (a.length + 1 + ws.length) := findChar_second a ws _ hws
  have e : a ++ ',' :: (ws ++ ',' :: (c ++ ',' :: t))
      = (a ++ ',' :: ws) ++ ',' :: (c ++ ',' :: t) := by simp
  have l : (a ++ ',' :: ws).length = a.length + 1 + ws.length := by simp; omega
  have n3 : findChar ',' (a ++ ',' :: (ws ++ ',' :: (c ++ ',' :: t)))
      (a.length + 1 + ws.length + 1) = some (a.length + 1 + ws.length + 1 + c.length) := by
    have := findChar_second (a ++ ',' :: ws) c t hc
    rw [l] at this
    rw [e]; exact this
  have f1 : substrTo (a ++ ',' :: (ws ++ ',' :: (c ++ ',' :: t))) (some a.length) = a := by
    simp [substrTo]
  have f2 := substrBetween_field a ws (c ++ ',' :: t)
  have f3 : substrBetween (a ++ ',' :: (ws ++ ',' :: (c ++ ',' :: t)))
      (some (a.length + 1 + ws.length)) (some (a.length + 1 + ws.length + 1 + c.length))
      = c := by
    have := substrBetween_field (a ++ ',' :: ws) c t
    rw [l] at this
    rw [e]; exact this
  have f4 : substrAfter (a ++ ',' :: (ws ++ ',' :: (c ++ ',' :: t)))
      (some (a.length + 1 + ws.length + 1 + c.length)) = t := by
    simp only [substrAfter, npos1]
    have e2 : a ++ ',' :: (ws ++ ',' :: (c ++ ',' :: t))
        = (a ++ ',' :: (ws ++ ',' :: (c ++ [','])) ) ++ t := by simp
    have l2 : a.length + 1 + ws.length + 1 + c.length + 1
        = (a ++ ',' :: (ws ++ ',' :: (c ++ [',']))).length := by simp; omega
    rw [e2, l2, List.drop_left]
  simp only [Workspaces.on_window_opened, n1, npos1, n2, n3, f1, f2, f3, f4]

theorem opened_loop_first (rules : Str → Str × Bool) (dflt : Str) (addr ws cls title : Str)
    (pre : List Workspace) (w : Workspace) (post : List Workspace) (cache : StrMap)
    (hpre : ∀ x ∈ pre, x.name_ ≠ ws) (hw : w.name_ = ws) :
    opened_loop rules dflt addr ws cls title (pre ++ w :: post) cache =
      (pre ++ (w.insert_window rules dflt cache addr cls).1 :: post,
        (w.insert_window rules dflt cache addr cls).2) := by
  induction pre with
  | nil => simp [opened_loop_cons, hw]
  | cons x pre ih =>
    have hx : ¬ ws = x.name_ := fun e => hpre x (by simp) e.symm
    have ih1 := ih (fun y hy => hpre y (by simp [hy]))
    simp [opened_loop_cons, hx, ih1]

theorem handle_event_openwindow (s : Workspaces) (reply : IPCReply) (payload : Str) :
    handle_event s reply "openwindow".toList payload =
      some ((s.update_window_count reply.workspaces).on_window_opened payload) := by
  unfold handle_event
  rw [if_neg (by decide), if_neg (by decide), if_neg (by decide), if_neg (by decide),
    if_neg (fun h => absurd h.1 (by decide)), if_pos (by decide)]

theorem update_window_count_map (s : Workspaces) (js : List WorkspaceData) :
    ∃ g : Workspace → Workspace,
      (∀ w, (g w).name_ = w.name_ ∧ (g w).window_map_ = w.window_map_) ∧
      s.update_window_count js = { s with workspaces_ := s.workspaces_.map g } :=
  ⟨fun w =>
      { w with windows_ :=
          match js.find? (fun x => x.name == w.name_) with
          | some x => if 0 ≤ x.windows ∧ x.windows < 4294967296 then x.windows.toNat else 0
          | none => 0 },
    fun _ => ⟨rfl, rfl⟩, rfl⟩

/-- C10, counterexample: the line `openwindow>0xAA,ws1,firefox,Title` on a registry whose
only workspace `ws1` has an empty window map leaves one entry keyed `xAA`, not `AA`: the
payload starts two characters after the event name and no address prefix is stripped.
With an empty default representation, the line `openwindow>>AA,ws1,kitty,Title` leaves the
map empty; and of two workspaces named `ws1` only the first receives the window. -/
theorem C10_single_delimiter_line_is_keyed_xAA :
    ((({ base_state with workspaces_ := [plain_workspace 1 "ws1" false] } : Workspaces).onEvent
        empty_reply "openwindow>0xAA,ws1,firefox,Title".toList).map
      (fun s => s.workspaces_.map (fun w => w.window_map_)))
      = some [[("xAA".toList, "F".toList)]] ∧
    (get_rewrite base_state.window_rewrite_rules_ base_state.window_rewrite_default_ []
      "firefox".toList).1 = "F".toList ∧
    ((({ base_state with workspaces_ := [plain_workspace 1 "ws1" false]
                         window_rewrite_default_ := [] } : Workspaces).onEvent
        empty_reply "openwindow>>AA,ws1,kitty,Title".toList).map
      (fun s => s.workspaces_.map (fun w => w.window_map_)))
      = some [[]] ∧
    ((({ base_state with workspaces_ :=
          [{ plain_workspace 1 "ws1" false with window_map_ := [("BB".toList, "F".toList)] },
            plain_workspace 2 "ws1" false] } : Workspaces).onEvent
        empty_reply "openwindow>>AA,ws1,firefox,Title".toList).map
      (fun s => s.workspaces_.map (fun w => w.window_map_)))
      = some [[("BB".toList, "F".toList), ("AA".toList, "F".toList)], []] := by
  refine ⟨?_, ?_, ?_, ?_⟩ <;> decide

/-- C10, amended: for every address `a`, workspace name `ws` and class `c` without a comma,
every title `t` and every character `d`, handling the line
`openwindow>` ++ `d` ++ `a,ws,c,t` (the stream writes `openwindow>>a,ws,c,t`) on a registry
whose first workspace named `ws` has an empty window map leaves that workspace with the
single entry keyed `a` whose value is `get_rewrite(c)` when that value is not empty, and
with an empty map when it is. -/
theorem C10_openwindow_inserts_rewritten_class (s : Workspaces) (reply : IPCReply)
    (a ws c t : Str) (d : Char) (pre : List Workspace) (w : Workspace) (post : List Workspace)
    (ha : ',' ∉ a) (hws : ',' ∉ ws) (hc : ',' ∉ c)
    (hreg : s.workspaces_ = pre ++ w :: post) (hpre : ∀ x ∈ pre, x.name_ ≠ ws)
    (hw : w.name_ = ws) (hmap : w.window_map_ = []) :
    ∃ s1 pre1 w1 post1,
      s.onEvent reply ("openwindow".toList ++ '>' :: d :: (a ++ ',' :: (ws ++ ',' :: (c ++ ',' :: t))))
        = some s1 ∧
      s1.workspaces_ = pre1 ++ w1 :: post1 ∧ pre1.length = pre.length ∧
      (∀ x ∈ pre1, x.name_ ≠ ws) ∧ w1.name_ = ws ∧
      w1.window_map_ =
        if (get_rewrite s.window_rewrite_rules_ s.window_rewrite_default_ s.regex_cache_ c).1
            = [] then []
        else [(a, (get_rewrite s.window_rewrite_rules_ s.window_rewrite_default_
          s.regex_cache_ c).1)] := by
  obtain ⟨g, hg, hcount⟩ := update_window_count_map s reply.workspaces
  rw [onEvent_split _ _ _ _ _ (by decide), handle_event_openwindow,
    on_window_opened_fields _ _ _ _ _ ha hws hc, hcount]
  simp only [hreg, List.map_append, List.map_cons]
  have hpre1 : ∀ x ∈ pre.map g, x.name_ ≠ ws := by
    intro x hx
    obtain ⟨y, hy, rfl⟩ := List.mem_map.mp hx
    rw [(hg y).1]
    exact hpre y hy
  have hw1 : (g w).name_ = ws := by rw [(hg w).1]; exact hw
  rw [opened_loop_first _ _ _ _ _ _ _ _ _ _ hpre1 hw1]
  refine ⟨_, pre.map g, _, post.map g, rfl, rfl, by simp, hpre1, ?_, ?_⟩
  · simp only [Workspace.insert_window]
    split <;> exact hw1
  · simp only [Workspace.insert_window]
    by_cases hr : (get_rewrite s.window_rewrite_rules_ s.window_rewrite_default_
        s.regex_cache_ c).1 = []
    · simp [hr, (hg w).2, hmap]
    · have hne : (!(get_rewrite s.window_rewrite_rules_ s.window_rewrite_default_
          s.regex_cache_ c).1.isEmpty) = true := by
        simpa [List.isEmpty_iff] using hr
      rw [if_pos hne, if_neg hr]
      simp [(hg w).2, hmap, StrMap.emplace, StrMap.contains]

/-- C10, amended, at the line `openwindow>>AA,ws1,firefox,Title` and the registry holding
the empty workspace `ws1`. -/
theorem C10_openwindow_inserts_rewritten_class_witness :
    ∃ s1 pre1 w1 post1,
      ({ base_state with workspaces_ := [plain_workspace 1 "ws1" false] } : Workspaces).onEvent
        empty_reply ("openwindow".toList ++ '>' :: '>' ::
          ("AA".toList ++ ',' :: ("ws1".toList ++ ',' :: ("firefox".toList ++ ',' ::
            "Title".toList)))) = some s1 ∧
      s1.workspaces_ = pre1 ++ w1 :: post1 ∧ pre1.length = ([] : List Workspace).length ∧
      (∀ x ∈ pre1, x.name_ ≠ "ws1".toList) ∧ w1.name_ = "ws1".toList ∧
      w1.window_map_ =
        if (get_rewrite base_state.window_rewrite_rules_ base_state.window_rewrite_default_
            base_state.regex_cache_ "firefox".toList).1 = [] then []
        else [("AA".toList, (get_rewrite base_state.window_rewrite_rules_
          base_state.window_rewrite_default_ base_state.regex_cache_ "firefox".toList).1)] :=
  C10_openwindow_inserts_rewritten_class
    { base_state with workspaces_ := [plain_workspace 1 "ws1" false] } empty_reply
    "AA".toList "ws1".toList "firefox".toList "Title".toList '>' [] (plain_workspace 1 "ws1" false)
    [] (by decide) (by decide) (by decide) rfl (fun x h => by simp at h) (by decide) (by decide)

/-! ## C11 -/

/-- C11, counterexample: on the line `workspace>dev` the payload handed to the `workspace`
branch is `ev`, not the text `dev` after the first `>`; and on the line `workspace>`, where
nothing follows the delimiter, the decoding throws. -/
theorem C11_payload_starts_two_characters_after_name :
    (({ base_state with active_workspace_name_ := "old".toList } : Workspaces).onEvent
        empty_reply "workspace>dev".toList).map (fun s => s.active_workspace_name_)
      = some "ev".toList ∧
    (base_state.onEvent empty_reply "workspace>".toList).map (fun s => s.active_workspace_name_)
      = none := by
  constructor <;> decide

/-- C11, amended: for every event line `name` ++ `>` ++ `d` ++ `payload`, where `name`
contains no `>` and `d` is any one character (the stream writes `>` there), `onEvent`
decodes the event kind as `name` and the payload as the text after those two characters,
kept whole; when fewer than two characters follow the name the decoding throws. -/
theorem C11_onEvent_decodes_name_and_payload (s : Workspaces) (reply : IPCReply)
    (name payload : Str) (d : Char) (hname : '>' ∉ name) :
    s.onEvent reply (name ++ '>' :: d :: payload) = handle_event s reply name payload ∧
    s.onEvent reply (name ++ ['>']) = none ∧
    s.onEvent reply name = none := by
  refine ⟨onEvent_split s reply name payload d hname, ?_, ?_⟩
  · unfold Workspaces.onEvent
    rw [findChar_first _ _ _ hname]
    simp [substrFrom]
  · unfold Workspaces.onEvent
    have : findChar '>' name 0 = none := by
      clear s reply payload d
      induction name with
      | nil => rfl
      | cons x xs ih =>
        have hx : ¬ x = '>' := fun e => hname (by simp [e])
        have hxs : '>' ∉ xs := fun e => hname (by simp [e])
        simp [findChar, hx, ih hxs]
    rw [this]

/-- C11, amended, at the line `workspace>>a>b,c`: the payload `a>b,c` keeps its further
delimiters and becomes the active name. -/
theorem C11_onEvent_decodes_name_and_payload_witness :
    '>' ∉ "workspace".toList ∧
    base_state.onEvent empty_reply ("workspace".toList ++ '>' :: '>' :: "a>b,c".toList)
      = some { base_state with active_workspace_name_ := "a>b,c".toList } :=
  ⟨by decide,
    (C11_onEvent_decodes_name_and_payload base_state empty_reply "workspace".toList
      "a>b,c".toList '>' (by decide)).1.trans rfl⟩

/-! ## C12 -/

theorem StrMap.lookup_isSome (m : StrMap) (k : Str) :
    (m.lookup k).isSome = m.contains k := by
  induction m with
  | nil => rfl
  | cons e m ih =>
    simp only [StrMap.lookup, StrMap.contains, List.find?_cons, List.any_cons] at ih ⊢
    cases h : (e.1 == k) with
    | true => simp
    | false => simpa using ih

theorem icon_or_eq (m : StrMap) (cond : Bool) (key rest name : Str) :
    icon_or m cond key rest =
      if (cond && m.contains key) = true then (m.lookup key).getD name else rest := by
  unfold icon_or
  have h := StrMap.lookup_isSome m key
  cases cond with
  | false => simp
  | true =>
    cases hl : m.lookup key with
    | none =>
      rw [hl] at h
      simp [← h]
    | some v =>
      rw [hl] at h
      simp [← h]

theorem icon_or_foldr (m : StrMap) (name : Str) (cands : List (Bool × Str)) :
    cands.foldr (fun c rest => icon_or m c.1 c.2 rest) name =
      match cands.find? (fun c => c.1 && m.contains c.2) with
      | some c => (m.lookup c.2).getD name
      | none => name := by
  induction cands with
  | nil => rfl
  | cons c cs ih =>
    rw [List.foldr_cons, icon_or_eq m c.1 c.2 _ name, List.find?_cons, ih]
    by_cases h : (c.1 && m.contains c.2) = true
    · rw [if_pos h, h]
    · rw [if_neg h]
      have h1 : (c.1 && m.contains c.2) = false := by simpa using h
      rw [h1]

/-- C12: for every workspace and every icon map, `select_icon` returns the value of the
first key present in the map among `urgent` (if urgent), `active` (if active), `special`
(if special), the workspace's name, `visible` (if visible), `empty` (if the window count
is zero), `persistent` (if persistent) and `default`, and the workspace's own name when
there is none. With the map `default: X` every workspace selects `X`, and with
`urgent: U, default: X` every urgent workspace selects `U`. -/
theorem C12_select_icon_follows_priority (w : Workspace) (icons_map : StrMap) (x u : Str) :
    w.select_icon icons_map = select_icon_by_priority w icons_map ∧
    w.select_icon [("default".toList, x)] = x ∧
    (w.is_urgent_ = true →
      w.select_icon [("urgent".toList, u), ("default".toList, x)] = u) := by
  refine ⟨?_, ?_, ?_⟩
  · exact icon_or_foldr icons_map w.name_ (icon_priorities w)
  · simp only [Workspace.select_icon, icon_or_eq _ _ _ _ w.name_]
    by_cases hn : w.name_ = "default".toList
    · simp [StrMap.contains, StrMap.lookup, hn]
    · have hb : ("default".toList == w.name_) = false := by
        simpa using fun e : "default".toList = w.name_ => hn e.symm
      have h1 : StrMap.contains [("default".toList, x)] w.name_ = false := by
        simp only [StrMap.contains, List.any_cons, List.any_nil, hb, Bool.or_false]
      have h2 : ∀ k : Str, k ≠ "default".toList →
          StrMap.contains [("default".toList, x)] k = false := by
        intro k hk
        have : ("default".toList == k) = false := by
          simpa using fun e : "default".toList = k => hk e.symm
        simp only [StrMap.contains, List.any_cons, List.any_nil, this, Bool.or_false]
      rw [h1, h2 _ (by decide), h2 _ (by decide), h2 _ (by decide), h2 _ (by decide),
        h2 _ (by decide), h2 _ (by decide)]
      simp [StrMap.contains, StrMap.lookup]
  · intro hu
    simp [Workspace.select_icon, icon_or, hu, StrMap.lookup]

/-- C12 at an urgent workspace named `ws1` and the map `urgent: U, default: X`. -/
theorem C12_select_icon_follows_priority_witness :
    ({ plain_workspace 1 "ws1" false with is_urgent_ := true }).select_icon
      [("urgent".toList, "U".toList), ("default".toList, "X".toList)] = "U".toList :=
  (C12_select_icon_follows_priority { plain_workspace 1 "ws1" false with is_urgent_ := true }
    [] "X".toList "U".toList).2.2 rfl

/-! ## Decimal renderings -/

theorem digit_char_facts (d : Nat) (h : d < 10) :
    isspace (digit_char d) = false ∧ (digit_char d).isDigit = true ∧
    (digit_char d).toNat - 48 = d ∧ digit_char d ≠ '-' ∧ digit_char d ≠ '+' := by
  interval_cases d <;> decide

theorem to_digits_eq_map (fuel n : Nat) (h : n < fuel) :
    ∃ ds : List Nat, ds ≠ [] ∧ (∀ d ∈ ds, d < 10) ∧
      to_digits fuel n = ds.map digit_char ∧ ds.foldl (fun a d => 10 * a + d) 0 = n := by
  induction fuel generalizing n with
  | zero => omega
  | succ fuel ih =>
    unfold to_digits
    by_cases h10 : n < 10
    · exact ⟨[n], by simp, by simpa using h10, by simp [h10], by simp⟩
    · have hlt : n / 10 < fuel := by omega
      obtain ⟨ds, _, hds, hmap, hval⟩ := ih (n / 10) hlt
      refine ⟨ds ++ [n % 10], by simp, ?_, ?_, ?_⟩
      · intro d hd
        rcases List.mem_append.mp hd with hd | hd
        · exact hds d hd
        · have : d = n % 10 := by simpa using hd
          omega
      · simp [h10, hmap]
      · rw [List.foldl_append, hval]
        simp only [List.foldl_cons, List.foldl_nil]
        omega

theorem digitsValue_map (ds : List Nat) (h : ∀ d ∈ ds, d < 10) (acc : Nat) :
    (ds.map digit_char).foldl (fun a c => 10 * a + (c.toNat - 48)) acc
      = ds.foldl (fun a d => 10 * a + d) acc := by
  induction ds generalizing acc with
  | nil => rfl
  | cons d ds ih =>
    simp only [List.map_cons, List.foldl_cons]
    rw [(digit_char_facts d (h d (by simp))).2.2.1]
    exact ih (fun x hx => h x (by simp [hx])) _

theorem takeWhile_digits (ds : List Nat) (h : ∀ d ∈ ds, d < 10) :
    (ds.map digit_char).takeWhile Char.isDigit = ds.map digit_char := by
  induction ds with
  | nil => rfl
  | cons d ds ih =>
    simp only [List.map_cons, List.takeWhile_cons,
      (digit_char_facts d (h d (by simp))).2.1, if_true]
    rw [ih (fun x hx => h x (by simp [hx]))]

theorem stoi_digits (ds : List Nat) (hne : ds ≠ []) (h : ∀ d ∈ ds, d < 10)
    (hmax : ds.foldl (fun a d => 10 * a + d) 0 ≤ 2147483647) :
    stoi (ds.map digit_char) = StoiResult.ok (ds.foldl (fun a d => 10 * a + d) 0 : Nat) := by
  obtain ⟨d, ds1, rfl⟩ := List.exists_cons_of_ne_nil hne
  have hd := digit_char_facts d (h d (by simp))
  have htw := takeWhile_digits (d :: ds1) h
  have hval := digitsValue_map (d :: ds1) h 0
  simp only [List.map_cons] at htw hval ⊢
  unfold stoi
  simp only [List.dropWhile_cons, hd.1, Bool.false_eq_true, if_false, List.head?_cons,
    Option.some.injEq, hd.2.2.2.1, hd.2.2.2.2, or_self, htw, List.isEmpty_cons, digitsValue,
    hval]
  rw [if_neg]
  omega

theorem stoi_neg_digits (ds : List Nat) (hne : ds ≠ []) (h : ∀ d ∈ ds, d < 10)
    (hmax : ds.foldl (fun a d => 10 * a + d) 0 ≤ 2147483648) :
    stoi ('-' :: ds.map digit_char)
      = StoiResult.ok (-(ds.foldl (fun a d => 10 * a + d) 0 : Nat)) := by
  obtain ⟨d, ds1, rfl⟩ := List.exists_cons_of_ne_nil hne
  have htw := takeWhile_digits (d :: ds1) h
  have hval := digitsValue_map (d :: ds1) h 0
  simp only [List.map_cons] at htw hval ⊢
  unfold stoi
  have hsp : isspace '-' = false := by decide
  simp only [List.dropWhile_cons, hsp, Bool.false_eq_true, if_false, List.head?_cons,
    true_or, if_true, List.tail_cons, htw, List.isEmpty_cons, digitsValue, hval, decide_True]
  rw [if_neg]
  omega

theorem stoi_to_string (n : Int) (hlo : -2147483648 ≤ n) (hhi : n ≤ 2147483647) :
    stoi (to_string n) = StoiResult.ok n := by
  cases n with
  | ofNat k =>
    obtain ⟨ds, hne, hds, hmap, hval⟩ := to_digits_eq_map (k + 1) k (by omega)
    have hk : k ≤ 2147483647 := by
      have : (k : Int) ≤ 2147483647 := hhi
      omega
    simp only [to_string, hmap]
    rw [stoi_digits ds hne hds (by omega), hval]
    rfl
  | negSucc k =>
    obtain ⟨ds, hne, hds, hmap, hval⟩ := to_digits_eq_map (k + 2) (k + 1) (by omega)
    have hk : k + 1 ≤ 2147483648 := by
      have h1 : -2147483648 ≤ Int.negSucc k := hlo
      rw [Int.negSucc_eq] at h1
      omega
    simp only [to_string, hmap]
    rw [stoi_neg_digits ds hne hds (by omega), hval]
    rfl

theorem to_string_ne_special (n : Int) : to_string n ≠ "special".toList := by
  cases n with
  | ofNat k =>
    obtain ⟨ds, hne, hds, hmap, _⟩ := to_digits_eq_map (k + 1) k (by omega)
    obtain ⟨d, ds1, rfl⟩ := List.exists_cons_of_ne_nil hne
    simp only [to_string, hmap, List.map_cons]
    intro e
    have h1 := (digit_char_facts d (hds d (by simp))).2.1
    have h2 : digit_char d = 's' := by
      have := congrArg List.head? e
      simpa using this
    rw [h2] at h1
    exact absurd h1 (by decide)
  | negSucc k =>
    simp only [to_string]
    intro e
    have h1 := congrArg List.head? e
    simp only [List.head?_cons] at h1
    exact absurd h1 (by decide)

/-- C15, counterexample: the name `1:web` is no decimal integer and its record gets the id
1, not 0; the decimal integer `99999999999` gets the id 0; and under NUMBER the creation
of the names `1` and `99999999999` throws out of the step, from the sort. -/
theorem C15_id_is_the_parsed_leading_number :
    (persistent_record "DP-1".toList "1:web".toList).id = 1 ∧
    (persistent_record "DP-1".toList "99999999999".toList).id = 0 ∧
    registry (({ base_state with sort_by_ := SORT_METHOD.NUMBER } :
      Workspaces).create_persistent_workspaces ["1".toList, "99999999999".toList]) = none := by
  refine ⟨?_, ?_, ?_⟩ <;> decide

/-- C15, amended: for every emitted name `s` the record built has the name `s` and
`persistent = true`; its id is -99 when `s` is exactly `special`, otherwise the number
`std::stoi` reads at the start of `s` when it reads one in the range of `int` (so it is `n`
when `s` is the decimal rendering of an `int` `n`), and 0 when `std::stoi` throws (no
digits, or out of range): no exception of the id's parse leaves the step. -/
theorem C15_persistent_record_id (output_name s : Str) :
    (persistent_record output_name s).name = s ∧
    (persistent_record output_name s).persistent = some true ∧
    (s = "special".toList → (persistent_record output_name s).id = -99) ∧
    (∀ n : Int, -2147483648 ≤ n → n ≤ 2147483647 → s = to_string n →
      (persistent_record output_name s).id = n) ∧
    (∀ n : Int, s ≠ "special".toList → stoi s = StoiResult.ok n →
      (persistent_record output_name s).id = n) ∧
    (s ≠ "special".toList →
      stoi s = StoiResult.invalid_argument ∨ stoi s = StoiResult.out_of_range →
      (persistent_record output_name s).id = 0) := by
  refine ⟨rfl, rfl, fun h => ?_, fun n hlo hhi h => ?_, fun n hs h => ?_, fun hs h => ?_⟩
  · simp only [persistent_record]
    rw [if_pos h]
  · have hs : s ≠ "special".toList := by rw [h]; exact to_string_ne_special n
    have hp : stoi s = StoiResult.ok n := by rw [h]; exact stoi_to_string n hlo hhi
    simp only [persistent_record]
    rw [if_neg hs, hp]
  · simp only [persistent_record]
    rw [if_neg hs, h]
  · simp only [persistent_record]
    rcases h with h | h <;> rw [if_neg hs, h]

/-! ## C16 -/

theorem handle_event_moveworkspace (s : Workspaces) (reply : IPCReply) (payload : Str)
    (hall : s.all_outputs_ = false) :
    handle_event s reply "moveworkspace".toList payload =
      if s.output_name = substrAfter payload (findChar ',' payload 0) then
        match reply.workspaces.find? (fun workspace_json =>
            workspace_json.name == substrTo payload (findChar ',' payload 0) &&
            s.output_name == workspace_json.monitor) with
        | some workspace_json =>
          some { s with workspaces_to_create_ := s.workspaces_to_create_ ++ [workspace_json] }
        | none => some s
      else some { s with workspaces_to_remove_ :=
        s.workspaces_to_remove_ ++ [substrTo payload (findChar ',' payload 0)] } := by
  unfold handle_event
  rw [if_neg (by decide), if_neg (by decide), if_neg (by decide), if_neg (by decide),
    if_pos ⟨by decide, hall⟩]

theorem handle_event_moveworkspace_all (s : Workspaces) (reply : IPCReply) (payload : Str)
    (hall : s.all_outputs_ = true) :
    handle_event s reply "moveworkspace".toList payload = some s := by
  unfold handle_event
  rw [if_neg (by decide), if_neg (by decide), if_neg (by decide), if_neg (by decide),
    if_neg (fun h => by rw [hall] at h; exact absurd h.2 (by decide)),
    if_neg (by decide), if_neg (by decide), if_neg (by decide), if_neg (by decide),
    if_neg (by decide)]

/-- C16, counterexample: with `all-outputs` on, the event `moveworkspace>>dev,HDMI-1` on
output `DP-1` appends nothing to the removal queue. -/
theorem C16_moveworkspace_ignored_with_all_outputs :
    (({ base_state with all_outputs_ := true } : Workspaces).onEvent dev_reply
        "moveworkspace>>dev,HDMI-1".toList).map
      (fun s => (s.workspaces_to_remove_, s.workspaces_to_create_)) = some ([], []) := by
  decide

/-- C16, amended: for every `moveworkspace` event `ws,out`, when `all-outputs` is off: if
`out` differs from the local output name, `ws` is appended to the removal queue and
nothing else changes; if `out` equals it, the first record of the workspaces reply named
`ws` on the local output, if any, is appended to the creation queue and nothing else
changes. When `all-outputs` is on the event changes nothing. -/
theorem C16_moveworkspace_queues (s : Workspaces) (reply : IPCReply) (ws out : Str)
    (hfield : ',' ∉ ws) :
    (s.all_outputs_ = false → out ≠ s.output_name →
      s.onEvent reply ("moveworkspace>>".toList ++ (ws ++ ',' :: out))
        = some { s with workspaces_to_remove_ := s.workspaces_to_remove_ ++ [ws] }) ∧
    (s.all_outputs_ = false → out = s.output_name →
      s.onEvent reply ("moveworkspace>>".toList ++ (ws ++ ',' :: out))
        = some (match reply.workspaces.find?
            (fun r => r.name == ws && s.output_name == r.monitor) with
          | some r => { s with workspaces_to_create_ := s.workspaces_to_create_ ++ [r] }
          | none => s)) ∧
    (s.all_outputs_ = true →
      s.onEvent reply ("moveworkspace>>".toList ++ (ws ++ ',' :: out)) = some s) := by
  have hline : "moveworkspace>>".toList ++ (ws ++ ',' :: out)
      = "moveworkspace".toList ++ '>' :: '>' :: (ws ++ ',' :: out) := rfl
  obtain ⟨h1, h2⟩ := split_first ws out hfield
  refine ⟨fun hall hout => ?_, fun hall hout => ?_, fun hall => ?_⟩
  · rw [hline, onEvent_split _ _ _ _ _ (by decide), handle_event_moveworkspace _ _ _ hall,
      h1, h2, if_neg (fun e => hout e.symm)]
  · rw [hline, onEvent_split _ _ _ _ _ (by decide), handle_event_moveworkspace _ _ _ hall,
      h1, h2, if_pos hout.symm]
    cases reply.workspaces.find? (fun r => r.name == ws && s.output_name == r.monitor) <;> rfl
  · rw [hline, onEvent_split _ _ _ _ _ (by decide), handle_event_moveworkspace_all _ _ _ hall]

/-- C16, amended, on output `DP-1` with `all-outputs` off: `moveworkspace>>dev,HDMI-1`
queues the removal of `dev`. -/
theorem C16_moveworkspace_queues_witness :
    base_state.onEvent dev_reply ("moveworkspace>>".toList ++ ("dev".toList ++ ',' ::
        "HDMI-1".toList))
      = some { base_state with workspaces_to_remove_ := [] ++ ["dev".toList] } :=
  (C16_moveworkspace_queues base_state dev_reply "dev".toList "HDMI-1".toList (by decide)).1
    rfl (by decide)

/-! ## C17 -/

theorem handle_event_total (s : Workspaces) (reply : IPCReply) (name payload : Str)
    (hname : name ≠ "renameworkspace".toList) :
    ∃ s1, handle_event s reply name payload = some s1 := by
  unfold handle_event
  dsimp only
  repeat' split
  all_goals exact ⟨_, rfl⟩

theorem handle_event_unregistered (s : Workspaces) (reply : IPCReply) (name payload : Str)
    (hname : name ∉ registered_kinds) : handle_event s reply name payload = some s := by
  simp only [registered_kinds, List.mem_cons, List.mem_singleton, List.not_mem_nil, not_or,
    or_false] at hname
  obtain ⟨h1, h2, h3, h4, h5, h6, h7, h8, h9, h10⟩ := hname
  unfold handle_event
  rw [if_neg h1, if_neg h3, if_neg h2, if_neg h4, if_neg (fun h => h5 h.1), if_neg h7,
    if_neg h8, if_neg h9, if_neg h10, if_neg h6]

/-- C17, counterexample: handling raises an error on a line with no `>` delimiter, on a
line with nothing after the delimiter, and on a `renameworkspace` event whose id is not a
number. -/
theorem C17_malformed_lines_raise :
    registry (base_state.onEvent empty_reply "workspace".toList) = none ∧
    registry (base_state.onEvent empty_reply "workspace>".toList) = none ∧
    registry (base_state.onEvent empty_reply "renameworkspace>>abc,web".toList) = none := by
  refine ⟨?_, ?_, ?_⟩ <;> decide

theorem handle_event_rename_raises (s : Workspaces) (reply : IPCReply) (payload : Str)
    (hspecial : substrTo payload (findChar ',' payload 0) ≠ "special".toList)
    (hstoi : ∀ n, stoi (substrTo payload (findChar ',' payload 0)) ≠ StoiResult.ok n) :
    handle_event s reply "renameworkspace".toList payload = none := by
  unfold handle_event
  rw [if_neg (by decide), if_neg (by decide), if_neg (by decide), if_neg (by decide),
    if_neg (fun h => absurd h.1 (by decide)), if_neg (by decide), if_neg (by decide),
    if_neg (by decide), if_neg (by decide), if_pos (by decide)]
  cases hs : stoi (substrTo payload (findChar ',' payload 0)) with
  | ok n => exact absurd hs (hstoi n)
  | invalid_argument => simp only [if_neg hspecial, hs]
  | out_of_range => simp only [if_neg hspecial, hs]

theorem onEvent_one_character_after_name (s : Workspaces) (reply : IPCReply) (name : Str)
    (hname : '>' ∉ name) : s.onEvent reply (name ++ ['>']) = none := by
  unfold Workspaces.onEvent
  rw [findChar_first _ _ _ hname]
  simp [substrFrom]

theorem onEvent_no_delimiter (s : Workspaces) (reply : IPCReply) (ev : Str)
    (hev : '>' ∉ ev) : s.onEvent reply ev = none := by
  unfold Workspaces.onEvent
  have : findChar '>' ev 0 = none := by
    induction ev with
    | nil => rfl
    | cons x xs ih =>
      have hx : ¬ x = '>' := fun e => hev (by simp [e])
      have hxs : '>' ∉ xs := fun e => hev (by simp [e])
      simp [findChar, hx, ih hxs]
  rw [this]

/-- C17, amended: for every event line `name>>payload` (an event name without `>`, two
characters, then the payload), handling completes without raising an error unless the
kind is `renameworkspace` and the id field of the payload (the text before its first
comma) is neither `special` nor a number `std::stoi` reads within `int`, in which case it
raises; it leaves the whole state unchanged when the kind is not one of the ten registered
kinds. A line with only one character after the event name, or with no `>` at all,
raises. -/
theorem C17_well_formed_lines_are_handled (s : Workspaces) (reply : IPCReply)
    (name payload : Str) (d : Char) (hname : '>' ∉ name) :
    ((name ≠ "renameworkspace".toList ∨
        substrTo payload (findChar ',' payload 0) = "special".toList ∨
        ∃ n, stoi (substrTo payload (findChar ',' payload 0)) = StoiResult.ok n) →
      ∃ s1, s.onEvent reply (name ++ '>' :: d :: payload) = some s1) ∧
    (name = "renameworkspace".toList →
      substrTo payload (findChar ',' payload 0) ≠ "special".toList →
      (∀ n, stoi (substrTo payload (findChar ',' payload 0)) ≠ StoiResult.ok n) →
      s.onEvent reply (name ++ '>' :: d :: payload) = none) ∧
    (name ∉ registered_kinds → s.onEvent reply (name ++ '>' :: d :: payload) = some s) ∧
    s.onEvent reply (name ++ ['>']) = none ∧
    s.onEvent reply name = none := by
  rw [onEvent_split s reply name payload d hname]
  refine ⟨fun h => ?_, fun hn hsp hst => ?_, handle_event_unregistered s reply name payload,
    onEvent_one_character_after_name s reply name hname, onEvent_no_delimiter s reply name hname⟩
  · by_cases hn : name = "renameworkspace".toList
    · by_cases hsp : substrTo payload (findChar ',' payload 0) = "special".toList
      · rw [hn, handle_event_rename s reply payload (-99) (Or.inl ⟨hsp, rfl⟩)]
        exact ⟨_, rfl⟩
      · rcases h with h | h | ⟨n, h⟩
        · exact absurd hn h
        · exact absurd h hsp
        · rw [hn, handle_event_rename s reply payload n (Or.inr ⟨hsp, h⟩)]
          exact ⟨_, rfl⟩
    · exact handle_event_total s reply name payload hn
  · rw [hn]
    exact handle_event_rename_raises s reply payload hsp hst

/-- C17, amended, at the line `activewindow>>kitty,zsh`, whose kind is not registered. -/
theorem C17_well_formed_lines_are_handled_witness :
    '>' ∉ "activewindow".toList ∧
    "activewindow".toList ∉ registered_kinds ∧
    base_state.onEvent empty_reply ("activewindow".toList ++ '>' :: '>' ::
      "kitty,zsh".toList) = some base_state :=
  ⟨by decide, by decide,
    (C17_well_formed_lines_are_handled base_state empty_reply "activewindow".toList
      "kitty,zsh".toList '>' (by decide)).2.2.1 (by decide)⟩

/-! ## C18 -/

theorem name_matches_iff (n : Str) (x : Workspace) :
    name_matches n x = true ↔
      (x.name_ = n ∨ (starts_with n "special:".toList = true ∧ x.name_ = n.drop 8)) := by
  unfold name_matches
  simp only [Bool.or_eq_true, Bool.and_eq_true, beq_iff_eq]
  constructor
  · rintro (⟨h1, h2⟩ | h)
    · exact Or.inr ⟨h1, h2.symm⟩
    · exact Or.inl h.symm
  · rintro (h | ⟨h1, h2⟩)
    · exact Or.inr h.symm
    · exact Or.inl ⟨h1, h2.symm⟩

theorem filter_persistent_of_erase (pre post : List Workspace) (w : Workspace)
    (hw : w.is_persistent_ = false) :
    (pre ++ post).filter (fun x => x.is_persistent_)
      = (pre ++ w :: post).filter (fun x => x.is_persistent_) := by
  simp [List.filter_append, List.filter_cons, hw]

/-- C18: `remove_workspace(n)` looks up the first workspace whose name equals `n` or, when
`n` starts with `special:`, equals `n` without those eight characters. If there is none,
or it is persistent, the registry is unchanged; otherwise exactly that workspace is
removed and every other one stays, in the same order. No persistent workspace is ever
removed. -/
theorem C18_remove_workspace_frame (s : Workspaces) (n : Str) :
    (∀ x : Workspace, name_matches n x = true ↔
      (x.name_ = n ∨ (starts_with n "special:".toList = true ∧ x.name_ = n.drop 8))) ∧
    (s.workspaces_.find? (name_matches n) = none → s.remove_workspace n = s) ∧
    (∀ w, s.workspaces_.find? (name_matches n) = some w → w.is_persistent_ = true →
      s.remove_workspace n = s) ∧
    (∀ w, s.workspaces_.find? (name_matches n) = some w → w.is_persistent_ = false →
      ∃ pre post, s.workspaces_ = pre ++ w :: post ∧
        (∀ x ∈ pre, name_matches n x = false) ∧
        (s.remove_workspace n).workspaces_ = pre ++ post) ∧
    (s.remove_workspace n).workspaces_.filter (fun x => x.is_persistent_)
      = s.workspaces_.filter (fun x => x.is_persistent_) := by
  have hremoved : ∀ w, s.workspaces_.find? (name_matches n) = some w →
      w.is_persistent_ = false →
      ∃ pre post, s.workspaces_ = pre ++ w :: post ∧
        (∀ x ∈ pre, name_matches n x = false) ∧
        (s.remove_workspace n).workspaces_ = pre ++ post := by
    intro w hfind hw
    obtain ⟨hp, pre, post, hreg, hpre⟩ := List.find?_eq_some.mp hfind
    have hpre1 : ∀ x ∈ pre, name_matches n x = false := fun x hx => by
      simpa using hpre x hx
    refine ⟨pre, post, hreg, hpre1, ?_⟩
    simp only [Workspaces.remove_workspace, hfind, hw, Bool.false_eq_true, if_false]
    rw [hreg, List.eraseP_append_right _ (fun x hx => by simp [hpre1 x hx]),
      List.eraseP_cons_of_pos hp]
  refine ⟨name_matches_iff n, fun h => ?_, fun w h hw => ?_, hremoved, ?_⟩
  · simp [Workspaces.remove_workspace, h]
  · simp [Workspaces.remove_workspace, h, hw]
  · cases hfind : s.workspaces_.find? (name_matches n) with
    | none => simp [Workspaces.remove_workspace, hfind]
    | some w =>
      cases hw : w.is_persistent_ with
      | true => simp [Workspaces.remove_workspace, hfind, hw]
      | false =>
        obtain ⟨pre, post, hreg, _, hres⟩ := hremoved w hfind hw
        rw [hres, hreg]
        exact filter_persistent_of_erase pre post w hw

/-! ## C19 -/

theorem StrMap.lookup_of_contains (m : StrMap) (k : Str) (h : m.contains k = true) :
    m.lookup k = some ((m.lookup k).getD []) := by
  have h1 := StrMap.lookup_isSome m k
  rw [h] at h1
  obtain ⟨v, hv⟩ := Option.isSome_iff_exists.mp h1
  rw [hv]; rfl

theorem StrMap.lookup_emplace_keep (m : StrMap) (k v k1 v1 : Str)
    (h : m.lookup k = some v) : (m.emplace k1 v1).lookup k = some v := by
  unfold StrMap.emplace
  split
  · exact h
  · simp only [StrMap.lookup, List.find?_append] at h ⊢
    cases hf : List.find? (fun e => e.1 == k) m with
    | none => rw [hf] at h; cases h
    | some e => rw [hf] at h; simpa using h

theorem get_rewrite_keeps (rules : Str → Str × Bool) (dflt : Str) (cache : StrMap)
    (c k v : Str) (h : cache.lookup k = some v) :
    (get_rewrite rules dflt cache c).2.lookup k = some v := by
  unfold get_rewrite
  split
  · exact h
  · exact StrMap.lookup_emplace_keep _ _ _ _ _ h

theorem get_rewrite_caches (rules : Str → Str × Bool) (dflt : Str) (cache : StrMap) (c : Str) :
    (get_rewrite rules dflt cache c).2.lookup c = some (get_rewrite rules dflt cache c).1 := by
  unfold get_rewrite
  by_cases h : cache.contains c = true
  · rw [if_pos h]
    exact StrMap.lookup_of_contains cache c h
  · rw [if_neg h]
    exact StrMap.lookup_emplace _ _ _ (by simpa using h)

theorem get_rewrite_hit (rules : Str → Str × Bool) (dflt : Str) (cache : StrMap) (c v : Str)
    (h : cache.lookup c = some v) : (get_rewrite rules dflt cache c).1 = v := by
  unfold get_rewrite
  rw [if_pos (StrMap.contains_of_lookup _ _ _ h), h]
  rfl

theorem rewrite_all_keeps (rules : Str → Str × Bool) (dflt : Str) (cache : StrMap)
    (classes : List Str) (k v : Str) (h : cache.lookup k = some v) :
    (rewrite_all rules dflt cache classes).lookup k = some v := by
  induction classes generalizing cache with
  | nil => exact h
  | cons c cs ih =>
    exact ih (get_rewrite rules dflt cache c).2 (get_rewrite_keeps rules dflt cache c k v h)

/-- C19: for every window class `c` and every cache, `get_rewrite(c)` returns the cached
value when `c` is cached; on a miss it returns the result of the rules when one matched
and the default placeholder when none did. After the call the cache maps `c` to the
returned value and every previously cached entry is unchanged, and after any further
calls a call with `c` returns the same value. -/
theorem C19_get_rewrite_memoizes (rules : Str → Str × Bool) (dflt : Str) (cache : StrMap)
    (c : Str) :
    (∀ v, cache.lookup c = some v → (get_rewrite rules dflt cache c).1 = v) ∧
    (cache.contains c = false →
      (get_rewrite rules dflt cache c).1 = if (rules c).2 = true then (rules c).1 else dflt) ∧
    (get_rewrite rules dflt cache c).2.lookup c = some (get_rewrite rules dflt cache c).1 ∧
    (∀ k v, cache.lookup k = some v → (get_rewrite rules dflt cache c).2.lookup k = some v) ∧
    (∀ classes : List Str,
      (get_rewrite rules dflt
        (rewrite_all rules dflt (get_rewrite rules dflt cache c).2 classes) c).1
        = (get_rewrite rules dflt cache c).1) := by
  refine ⟨fun v h => get_rewrite_hit rules dflt cache c v h, fun h => ?_,
    get_rewrite_caches rules dflt cache c,
    fun k v h => get_rewrite_keeps rules dflt cache c k v h, fun classes => ?_⟩
  · unfold get_rewrite
    rw [if_neg (by simp [h])]
    dsimp only
    cases hr : (rules c).2 <;> simp
  · exact get_rewrite_hit rules dflt _ c _
      (rewrite_all_keeps rules dflt _ classes c _ (get_rewrite_caches rules dflt cache c))

/-! ## C20 -/

/-- C20, counterexample: the record with id 3 and name `specialfoo` gives a workspace whose
special flag is set and whose id is above 0; workspace 5 compares after it, the first rule
of the cascade ordering both by id. -/
theorem C20_special_with_positive_id_sorts_by_id :
    (Workspace.construct base_state.window_rewrite_rules_ base_state.window_rewrite_default_ []
        { id := 3, name := "specialfoo".toList, monitor := "DP-1".toList, windows := 0,
          persistent := none } []).map (fun r => r.1)
      = some { plain_workspace 3 "oo" true with active_ := true } ∧
    sort_comp SORT_METHOD.DEFAULT (plain_workspace 5 "5" false)
      { plain_workspace 3 "oo" true with active_ := true } = some false ∧
    sort_comp SORT_METHOD.DEFAULT { plain_workspace 3 "oo" true with active_ := true }
      (plain_workspace 5 "5" false) = some true := by
  refine ⟨?_, ?_, ?_⟩ <;> decide

/-- C20, amended: under DEFAULT, for every workspace `a` with id above 0 and every
workspace `b` whose special flag is set and whose id is not above 0 (as for every special
workspace the compositor reports), `comp(a, b)` is true and `comp(b, a)` is false. -/
theorem C20_positive_id_sorts_before_special (a b : Workspace)
    (ha : 0 < a.id_) (hb : b.is_special_ = true) (hbid : ¬ 0 < b.id_) :
    sort_comp SORT_METHOD.DEFAULT a b = some true ∧
    sort_comp SORT_METHOD.DEFAULT b a = some false := by
  cases hs : a.is_special_ <;>
    simp [sort_comp, default_comp, ha, hb, hbid, hs]

/-- C20, amended, at workspace 5 and the named special workspace `scratch` (id -98). -/
theorem C20_positive_id_sorts_before_special_witness :
    sort_comp SORT_METHOD.DEFAULT (plain_workspace 5 "5" false)
      (plain_workspace (-98) "scratch" true) = some true ∧
    sort_comp SORT_METHOD.DEFAULT (plain_workspace (-98) "scratch" true)
      (plain_workspace 5 "5" false) = some false :=
  C20_positive_id_sorts_before_special (plain_workspace 5 "5" false)
    (plain_workspace (-98) "scratch" true) (by decide) rfl (by decide)

/-! ## C21 -/

/-- C21: a click translates into one dispatch command, determined by the id, the special
flag and the name: `dispatch workspace` with the decimal id when the id is above 0;
otherwise `dispatch workspace name:` with the name when the workspace is not special;
otherwise `dispatch togglespecialworkspace` with the name when the id is not -99; otherwise
`dispatch togglespecialworkspace` alone. For an id in the range of `int` the decimal is
read back by `std::stoi` as the id. -/
theorem C21_click_dispatch_command (w : Workspace) :
    (0 < w.id_ → w.handle_clicked = "dispatch workspace ".toList ++ to_string w.id_) ∧
    (0 < w.id_ → w.id_ ≤ 2147483647 → stoi (to_string w.id_) = StoiResult.ok w.id_) ∧
    (¬ 0 < w.id_ → w.is_special_ = false →
      w.handle_clicked = "dispatch workspace name:".toList ++ w.name_) ∧
    (¬ 0 < w.id_ → w.is_special_ = true → w.id_ ≠ -99 →
      w.handle_clicked = "dispatch togglespecialworkspace ".toList ++ w.name_) ∧
    (w.is_special_ = true → w.id_ = -99 →
      w.handle_clicked = "dispatch togglespecialworkspace".toList) ∧
    (∀ v : Workspace, v.id_ = w.id_ → v.is_special_ = w.is_special_ → v.name_ = w.name_ →
      v.handle_clicked = w.handle_clicked) := by
  refine ⟨fun h => ?_, fun h1 h2 => stoi_to_string w.id_ (by omega) h2, fun h hs => ?_,
    fun h hs hid => ?_, fun hs hid => ?_, fun v h1 h2 h3 => ?_⟩
  · simp [Workspace.handle_clicked, h]
  · simp [Workspace.handle_clicked, h, hs]
  · simp [Workspace.handle_clicked, h, hs, hid]
  · simp [Workspace.handle_clicked, hs, hid]
  · simp only [Workspace.handle_clicked, h1, h2, h3]

/-- C21 at workspace 3, the named workspace `dev`, the named special `scratch` and the
unnamed special workspace. -/
theorem C21_click_dispatch_command_witness :
    (plain_workspace 3 "3" false).handle_clicked = "dispatch workspace 3".toList ∧
    (plain_workspace (-1337) "dev" false).handle_clicked
      = "dispatch workspace name:dev".toList ∧
    (plain_workspace (-98) "scratch" true).handle_clicked
      = "dispatch togglespecialworkspace scratch".toList ∧
    (plain_workspace (-99) "special" true).handle_clicked
      = "dispatch togglespecialworkspace".toList :=
  ⟨((C21_click_dispatch_command (plain_workspace 3 "3" false)).1 (by decide)).trans
      (by decide),
    by decide, by decide, by decide⟩

/-! ## C22 -/

theorem construct_not_urgent (rules : Str → Str × Bool) (dflt : Str) (cache : StrMap)
    (data : WorkspaceData) (w : Workspace) (cache1 : StrMap)
    (h : Workspace.construct rules dflt cache data [] = some (w, cache1)) :
    w.is_urgent_ = false := by
  cases hn : normalize_name data.id data.name with
  | none => simp [Workspace.construct, hn] at h
  | some p =>
    obtain ⟨nm, sp⟩ := p
    rw [construct_no_clients rules dflt cache data nm sp hn] at h
    simp only [Option.some.injEq, Prod.mk.injEq] at h
    rw [← h.1]

theorem create_workspace_origin (s s1 : Workspaces) (data : WorkspaceData)
    (h : s.create_workspace data [] = some s1) :
    s1.active_workspace_name_ = s.active_workspace_name_ ∧
    s1.with_icon_ = s.with_icon_ ∧
    ∀ w ∈ s1.workspaces_, w ∈ s.workspaces_ ∨ w.is_urgent_ = false := by
  simp only [Workspaces.create_workspace] at h
  split at h
  · cases h
  · rename_i w cache hc
    split at h
    · cases h
    · rename_i sorted hs
      simp only [Option.some.injEq] at h
      rw [← h]
      refine ⟨rfl, rfl, fun x hx => ?_⟩
      have hperm := sort_workspaces_some_perm _ _ _ hs
      have hx1 := hperm.mem_iff.mp hx
      rcases List.mem_append.mp hx1 with hx2 | hx2
      · left
        split at hx2
        · exact List.mem_of_mem_eraseP hx2
        · exact hx2
      · right
        rw [List.mem_singleton.mp hx2]
        exact construct_not_urgent _ _ _ _ _ _ hc

theorem remove_workspace_origin (s : Workspaces) (n : Str) :
    (s.remove_workspace n).active_workspace_name_ = s.active_workspace_name_ ∧
    (s.remove_workspace n).with_icon_ = s.with_icon_ ∧
    (s.remove_workspace n).workspaces_to_create_ = s.workspaces_to_create_ ∧
    ∀ w ∈ (s.remove_workspace n).workspaces_, w ∈ s.workspaces_ := by
  unfold Workspaces.remove_workspace
  split
  · exact ⟨rfl, rfl, rfl, fun w hw => hw⟩
  · split
    · exact ⟨rfl, rfl, rfl, fun w hw => hw⟩
    · exact ⟨rfl, rfl, rfl, fun w hw => List.mem_of_mem_eraseP hw⟩

theorem remove_all_origin (names : List Str) (s : Workspaces) :
    (names.foldl Workspaces.remove_workspace s).active_workspace_name_
      = s.active_workspace_name_ ∧
    (names.foldl Workspaces.remove_workspace s).with_icon_ = s.with_icon_ ∧
    (names.foldl Workspaces.remove_workspace s).workspaces_to_create_
      = s.workspaces_to_create_ ∧
    ∀ w ∈ (names.foldl Workspaces.remove_workspace s).workspaces_, w ∈ s.workspaces_ := by
  induction names generalizing s with
  | nil => exact ⟨rfl, rfl, rfl, fun w hw => hw⟩
  | cons n ns ih =>
    obtain ⟨h1, h2, h3, h4⟩ := ih (s.remove_workspace n)
    obtain ⟨g1, g2, g3, g4⟩ := remove_workspace_origin s n
    exact ⟨h1.trans g1, h2.trans g2, h3.trans g3, fun w hw => g4 w (h4 w hw)⟩

theorem create_all_origin (records : List WorkspaceData) (s s1 : Workspaces)
    (h : create_all records s = some s1) :
    s1.active_workspace_name_ = s.active_workspace_name_ ∧
    s1.with_icon_ = s.with_icon_ ∧
    ∀ w ∈ s1.workspaces_, w ∈ s.workspaces_ ∨ w.is_urgent_ = false := by
  induction records generalizing s with
  | nil =>
    simp only [create_all, Option.some.injEq] at h
    rw [← h]
    exact ⟨rfl, rfl, fun w hw => Or.inl hw⟩
  | cons d ds ih =>
    simp only [create_all] at h
    cases hc : s.create_workspace d [] with
    | none => rw [hc] at h; cases h
    | some s2 =>
      rw [hc] at h
      obtain ⟨h1, h2, h3⟩ := ih s2 h
      obtain ⟨g1, g2, g3⟩ := create_workspace_origin s s2 d hc
      refine ⟨h1.trans g1, h2.trans g2, fun w hw => ?_⟩
      rcases h3 w hw with hw1 | hw1
      · exact g3 w hw1
      · exact Or.inr hw1

theorem eraseP_first (p : Workspace → Bool) (reg : List Workspace) :
    (reg.find? p = none ∧ reg.eraseP p = reg) ∨
    ∃ a l1 l2, reg.find? p = some a ∧ p a = true ∧ reg = l1 ++ a :: l2 ∧
      reg.eraseP p = l1 ++ l2 := by
  induction reg with
  | nil => exact Or.inl ⟨rfl, rfl⟩
  | cons x xs ih =>
    by_cases hx : p x = true
    · exact Or.inr ⟨x, [], xs, by simp [List.find?, hx], hx, rfl,
        by simp [List.eraseP_cons_of_pos hx]⟩
    · rcases ih with ⟨h1, h2⟩ | ⟨a, l1, l2, h1, h2, h3, h4⟩
      · exact Or.inl ⟨by simp [List.find?, hx, h1], by simp [List.eraseP_cons_of_neg hx, h2]⟩
      · exact Or.inr ⟨a, x :: l1, l2, by simp [List.find?, hx, h1], h2, by simp [h3],
          by simp [List.eraseP_cons_of_neg hx, h4]⟩

theorem origin_erase (P : Workspace → Prop) (orig l1 l2 : List Workspace) (k : Nat)
    (a : Workspace) (hP : P a)
    (h : ∃ kept dropped created, orig.Perm (kept ++ dropped) ∧ kept.Sublist orig ∧
      (l1 ++ a :: l2).Perm (kept ++ created) ∧ (∀ d ∈ dropped, P d) ∧
      (∀ c ∈ created, c.is_urgent_ = false) ∧ created.length ≤ k) :
    ∃ kept dropped created, orig.Perm (kept ++ dropped) ∧ kept.Sublist orig ∧
      (l1 ++ l2).Perm (kept ++ created) ∧ (∀ d ∈ dropped, P d) ∧
      (∀ c ∈ created, c.is_urgent_ = false) ∧ created.length ≤ k := by
  obtain ⟨kept, dropped, created, h1, h2, h3, h4, h5, h6⟩ := h
  have hmem : a ∈ kept ++ created := h3.mem_iff.mp (by simp)
  have hperm : (a :: (l1 ++ l2)).Perm (kept ++ created) := List.perm_middle.symm.trans h3
  rcases List.mem_append.mp hmem with hk | hc
  · obtain ⟨k1, k2, rfl⟩ := List.append_of_mem hk
    refine ⟨k1 ++ k2, a :: dropped, created, ?_, ?_, ?_, ?_, h5, h6⟩
    · refine h1.trans ?_
      simp only [List.append_assoc, List.cons_append]
      exact List.Perm.append_left k1 List.perm_middle.symm
    · exact List.Sublist.trans
        (List.Sublist.append_left (List.sublist_cons_self a k2) k1) h2
    · have hmid : ((k1 ++ a :: k2) ++ created).Perm (a :: ((k1 ++ k2) ++ created)) := by
        simp only [List.append_assoc, List.cons_append]
        exact List.perm_middle
      exact (hperm.trans hmid).cons_inv
    · intro d hd
      rcases List.mem_cons.mp hd with rfl | hd
      · exact hP
      · exact h4 d hd
  · obtain ⟨c1, c2, rfl⟩ := List.append_of_mem hc
    refine ⟨kept, dropped, c1 ++ c2, h1, h2, ?_, h4, ?_, ?_⟩
    · have hmid : (kept ++ (c1 ++ a :: c2)).Perm (a :: (kept ++ (c1 ++ c2))) := by
        rw [← List.append_assoc, ← List.append_assoc]
        exact List.perm_middle
      exact (hperm.trans hmid).cons_inv
    · intro c hc1
      apply h5 c
      rcases List.mem_append.mp hc1 with hc2 | hc2
      · exact List.mem_append_left _ hc2
      · exact List.mem_append_right _ (List.mem_cons_of_mem _ hc2)
    · simp only [List.length_append, List.length_cons] at h6 ⊢
      omega

theorem remove_workspace_kept (P : Workspace → Prop) (orig : List Workspace) (k : Nat)
    (s : Workspaces) (n : Str)
    (hP : ∀ a, a.is_persistent_ = false → name_matches n a = true → P a)
    (h : ∃ kept dropped created, orig.Perm (kept ++ dropped) ∧ kept.Sublist orig ∧
      s.workspaces_.Perm (kept ++ created) ∧ (∀ d ∈ dropped, P d) ∧
      (∀ c ∈ created, c.is_urgent_ = false) ∧ created.length ≤ k) :
    ∃ kept dropped created, orig.Perm (kept ++ dropped) ∧ kept.Sublist orig ∧
      (s.remove_workspace n).workspaces_.Perm (kept ++ created) ∧ (∀ d ∈ dropped, P d) ∧
      (∀ c ∈ created, c.is_urgent_ = false) ∧ created.length ≤ k := by
  unfold Workspaces.remove_workspace
  rcases eraseP_first (name_matches n) s.workspaces_ with ⟨h1, _⟩ | ⟨a, l1, l2, h1, h2, h3, h4⟩
  · rw [h1]
    exact h
  · rw [h1]
    simp only
    by_cases hp : a.is_persistent_ = true
    · rw [if_pos hp]
      exact h
    · rw [if_neg hp]
      simp only [h4]
      rw [h3] at h
      exact origin_erase P orig l1 l2 k a (hP a (by simpa using hp) h2) h

theorem remove_all_kept (P : Workspace → Prop) (orig : List Workspace) (k : Nat)
    (names : List Str) (s : Workspaces)
    (hP : ∀ n ∈ names, ∀ a, a.is_persistent_ = false → name_matches n a = true → P a)
    (h : ∃ kept dropped created, orig.Perm (kept ++ dropped) ∧ kept.Sublist orig ∧
      s.workspaces_.Perm (kept ++ created) ∧ (∀ d ∈ dropped, P d) ∧
      (∀ c ∈ created, c.is_urgent_ = false) ∧ created.length ≤ k) :
    ∃ kept dropped created, orig.Perm (kept ++ dropped) ∧ kept.Sublist orig ∧
      (names.foldl Workspaces.remove_workspace s).workspaces_.Perm (kept ++ created) ∧
      (∀ d ∈ dropped, P d) ∧
      (∀ c ∈ created, c.is_urgent_ = false) ∧ created.length ≤ k := by
  induction names generalizing s with
  | nil => exact h
  | cons n ns ih =>
    exact ih (s.remove_workspace n) (fun m hm => hP m (List.mem_cons_of_mem _ hm))
      (remove_workspace_kept P orig k s n (hP n (List.mem_cons_self _ _)) h)

theorem create_workspace_kept (P : Workspace → Prop) (orig : List Workspace) (k : Nat)
    (s s1 : Workspaces) (data : WorkspaceData)
    (hP : ∀ a, a.is_persistent_ = true → name_matches data.name a = true → P a)
    (hc : s.create_workspace data [] = some s1)
    (h : ∃ kept dropped created, orig.Perm (kept ++ dropped) ∧ kept.Sublist orig ∧
      s.workspaces_.Perm (kept ++ created) ∧ (∀ d ∈ dropped, P d) ∧
      (∀ c ∈ created, c.is_urgent_ = false) ∧ created.length ≤ k) :
    ∃ kept dropped created, orig.Perm (kept ++ dropped) ∧ kept.Sublist orig ∧
      s1.workspaces_.Perm (kept ++ created) ∧ (∀ d ∈ dropped, P d) ∧
      (∀ c ∈ created, c.is_urgent_ = false) ∧ created.length ≤ k + 1 := by
  simp only [Workspaces.create_workspace] at hc
  split at hc
  · cases hc
  · rename_i w cache hw
    split at hc
    · cases hc
    · rename_i sorted hs
      simp only [Option.some.injEq] at hc
      rw [← hc]
      simp only
      have hperm := sort_workspaces_some_perm _ _ _ hs
      have hurgent := construct_not_urgent _ _ _ _ _ _ hw
      have hstep : ∃ kept dropped created, orig.Perm (kept ++ dropped) ∧ kept.Sublist orig ∧
          (if (s.workspaces_.find? (fun x : Workspace =>
              x.is_persistent_ && name_matches data.name x)).isSome = true
            then s.workspaces_.eraseP (fun x : Workspace =>
              x.is_persistent_ && name_matches data.name x)
            else s.workspaces_).Perm (kept ++ created) ∧ (∀ d ∈ dropped, P d) ∧
          (∀ c ∈ created, c.is_urgent_ = false) ∧ created.length ≤ k := by
        rcases eraseP_first (fun x : Workspace => x.is_persistent_ && name_matches data.name x)
          s.workspaces_ with ⟨h1, _⟩ | ⟨a, l1, l2, h1, h2, h3, h4⟩
        · rw [h1]
          exact h
        · rw [h1, h4]
          simp only [Option.isSome_some, if_true]
          rw [h3] at h
          simp only [Bool.and_eq_true] at h2
          exact origin_erase P orig l1 l2 k a (hP a h2.1 h2.2) h
      obtain ⟨kept, dropped, created, g1, g2, g3, g4, g5, g6⟩ := hstep
      refine ⟨kept, dropped, created ++ [w], g1, g2, ?_, g4, ?_, ?_⟩
      · refine hperm.trans ?_
        rw [← List.append_assoc]
        exact List.Perm.append_right [w] g3
      · intro c hc1
        rcases List.mem_append.mp hc1 with hc2 | hc2
        · exact g5 c hc2
        · rw [List.mem_singleton.mp hc2]
          exact hurgent
      · simp only [List.length_append, List.length_singleton]
        omega

theorem create_all_kept (P : Workspace → Prop) (orig : List Workspace)
    (records : List WorkspaceData) (k : Nat) (s s1 : Workspaces)
    (hP : ∀ r ∈ records, ∀ a, a.is_persistent_ = true → name_matches r.name a = true → P a)
    (hc : create_all records s = some s1)
    (h : ∃ kept dropped created, orig.Perm (kept ++ dropped) ∧ kept.Sublist orig ∧
      s.workspaces_.Perm (kept ++ created) ∧ (∀ d ∈ dropped, P d) ∧
      (∀ c ∈ created, c.is_urgent_ = false) ∧ created.length ≤ k) :
    ∃ kept dropped created, orig.Perm (kept ++ dropped) ∧ kept.Sublist orig ∧
      s1.workspaces_.Perm (kept ++ created) ∧ (∀ d ∈ dropped, P d) ∧
      (∀ c ∈ created, c.is_urgent_ = false) ∧ created.length ≤ k + records.length := by
  induction records generalizing s k with
  | nil =>
    simp only [create_all, Option.some.injEq] at hc
    rw [← hc]
    exact h
  | cons d ds ih =>
    simp only [create_all] at hc
    cases hd : s.create_workspace d [] with
    | none => rw [hd] at hc; cases hc
    | some s2 =>
      rw [hd] at hc
      have hstep := create_workspace_kept P orig k s s2 d (hP d (List.mem_cons_self _ _)) hd h
      obtain ⟨kept, dropped, created, g1, g2, g3, g4, g5, g6⟩ :=
        ih (k + 1) s2 (fun r hr => hP r (List.mem_cons_of_mem _ hr)) hc hstep
      refine ⟨kept, dropped, created, g1, g2, g3, g4, g5, ?_⟩
      simp only [List.length_cons]
      omega

theorem update_loop_fst (active : Str) (visible : List Str) (with_icon : Bool)
    (reg : List Workspace) (icons : StrMap) :
    (update_loop active visible with_icon reg icons).1 = reg.map (update_flags active visible) := by
  induction reg generalizing icons with
  | nil => rfl
  | cons w rest ih => simp [update_loop, ih]

/-- C22: a tick whose creation queue is empty always completes, and after every tick that
completes the active-name pointer is what it was and, for every workspace of the
registry: `active` is true exactly when its name equals the pointer; an active workspace
has `urgent = false`; and a workspace that is not active has the urgent flag it had
before the tick. The workspace it had before the tick is pinned down: the registry after
the tick matches, position by position, a list `mid` with the same ids, names, window
maps and persistence, and `mid` is a rearrangement of `kept` and `created`, where `kept`
is the registry before the tick without the workspaces `dropped`, each of which is either
not persistent and named by the removal queue or persistent and named by the creation
queue, and `created` holds at most one workspace per queued creation, none of them urgent.
With both queues empty `mid` is the registry before the tick. Hence a workspace that no
queue names is still in the registry after the tick, with its urgent flag unless it is
the active one. -/
theorem C22_tick_sets_active_and_clears_urgent (s : Workspaces) (reply : IPCReply) :
    (s.workspaces_to_create_ = [] → ∃ s1, s.update reply = some s1) ∧
    ∀ s1, s.update reply = some s1 →
      s1.active_workspace_name_ = s.active_workspace_name_ ∧
      (∀ w ∈ s1.workspaces_,
        (w.active_ = true ↔ w.name_ = s1.active_workspace_name_) ∧
        (w.active_ = true → w.is_urgent_ = false)) ∧
      (∃ kept dropped created mid,
        s.workspaces_.Perm (kept ++ dropped) ∧ kept.Sublist s.workspaces_ ∧
        mid.Perm (kept ++ created) ∧
        (∀ d ∈ dropped,
          (d.is_persistent_ = false ∧
            ∃ n ∈ s.workspaces_to_remove_, name_matches n d = true) ∨
          (d.is_persistent_ = true ∧
            ∃ r ∈ s.workspaces_to_create_, name_matches r.name d = true)) ∧
        (∀ c ∈ created, c.is_urgent_ = false) ∧
        created.length ≤ s.workspaces_to_create_.length ∧
        (s.workspaces_to_remove_ = [] → s.workspaces_to_create_ = [] →
          mid = s.workspaces_) ∧
        List.Forall₂ (fun w0 w =>
          w.id_ = w0.id_ ∧ w.name_ = w0.name_ ∧ w.window_map_ = w0.window_map_ ∧
          w.is_persistent_ = w0.is_persistent_ ∧
          (w.active_ = false → w.is_urgent_ = w0.is_urgent_)) mid s1.workspaces_) ∧
      (∀ w0 ∈ s.workspaces_,
        (∀ n ∈ s.workspaces_to_remove_, name_matches n w0 = false) →
        (∀ r ∈ s.workspaces_to_create_, name_matches r.name w0 = false) →
        ∃ w ∈ s1.workspaces_,
          w.id_ = w0.id_ ∧ w.name_ = w0.name_ ∧ w.window_map_ = w0.window_map_ ∧
          (w.name_ ≠ s.active_workspace_name_ → w.is_urgent_ = w0.is_urgent_)) := by
  constructor
  · intro hc
    have h3 := (remove_all_origin s.workspaces_to_remove_ s).2.2.1
    simp only [Workspaces.update, h3, hc, create_all]
    exact ⟨_, rfl⟩
  · intro s1 h
    simp only [Workspaces.update] at h
    split at h
    · cases h
    · rename_i s3 hcreate
      simp only [Option.some.injEq] at h
      obtain ⟨c1, _, _⟩ := create_all_origin _ _ _ hcreate
      obtain ⟨r1, _, r3, _⟩ := remove_all_origin s.workspaces_to_remove_ s
      have hact : s3.active_workspace_name_ = s.active_workspace_name_ := by
        rw [c1]; exact r1
      have hkept := create_all_kept
        (fun d : Workspace =>
          (d.is_persistent_ = false ∧
            ∃ n ∈ s.workspaces_to_remove_, name_matches n d = true) ∨
          (d.is_persistent_ = true ∧
            ∃ r ∈ s.workspaces_to_create_, name_matches r.name d = true))
        s.workspaces_ _ 0 _ s3
        (fun r hr a ha hm => Or.inr ⟨ha, r, by simpa only [r3] using hr, hm⟩)
        hcreate
        (remove_all_kept _ s.workspaces_ 0 s.workspaces_to_remove_ s
          (fun n hn a ha hm => Or.inl ⟨ha, n, hn, hm⟩)
          ⟨s.workspaces_, [], [], by simp, List.Sublist.refl _, by simp,
            fun d hd => absurd hd (List.not_mem_nil d),
            fun c hc => absurd hc (List.not_mem_nil c), Nat.le_refl _⟩)
      simp only [r3, Nat.zero_add] at hkept
      obtain ⟨kept, dropped, created, g1, g2, g3, g4, g5, g6⟩ := hkept
      have hflag : ∀ w0 : Workspace,
          ((update_flags s3.active_workspace_name_
              (reply.monitors.filterMap (fun m => m.activeWorkspace)) w0).active_ = false →
            (update_flags s3.active_workspace_name_
              (reply.monitors.filterMap (fun m => m.activeWorkspace)) w0).is_urgent_
              = w0.is_urgent_) := by
        intro w0 ha
        simp only [update_flags, beq_eq_false_iff_ne, ne_eq] at ha
        have hb : (w0.name_ == s3.active_workspace_name_) = false := by simpa using ha
        simp [update_flags, hb]
      rw [← h]
      simp only [update_loop_fst]
      refine ⟨hact, fun w hw => ?_, ⟨kept, dropped, created, s3.workspaces_, g1, g2, g3, g4,
        g5, g6, fun hr hc => ?_, ?_⟩, fun w0 hw0 hrem hcre => ?_⟩
      · obtain ⟨w0, _, rfl⟩ := List.mem_map.mp hw
        simp only [update_flags, beq_iff_eq]
        constructor
        · trivial
        · intro ha
          simp [ha]
      · have hcreate1 := hcreate
        simp only [hr, hc, List.foldl_nil, create_all, Option.some.injEq] at hcreate1
        rw [← hcreate1]
      · rw [List.forall₂_map_right_iff, List.forall₂_same]
        intro w0 _
        exact ⟨rfl, rfl, rfl, rfl, hflag w0⟩
      · have hmem : w0 ∈ kept ++ dropped := g1.mem_iff.mp hw0
        have hk : w0 ∈ kept := by
          rcases List.mem_append.mp hmem with hk | hd
          · exact hk
          · rcases g4 w0 hd with ⟨_, n, hn, hm⟩ | ⟨_, r, hr, hm⟩
            · rw [hrem n hn] at hm
              cases hm
            · rw [hcre r hr] at hm
              cases hm
        have hmid : w0 ∈ s3.workspaces_ := g3.mem_iff.mpr (List.mem_append_left _ hk)
        refine ⟨_, List.mem_map_of_mem _ hmid, rfl, rfl, rfl, fun hne => ?_⟩
        apply hflag w0
        have hne1 : ¬ w0.name_ = s3.active_workspace_name_ := by
          rw [hact]
          exact hne
        simp [update_flags, hne1]

/-- C22 at the registry of an urgent `ws1` and an urgent `ws2` with the active name `ws2`:
after a tick `ws2` is active and no longer urgent, `ws1` is not active and still urgent. -/
theorem C22_tick_sets_active_and_clears_urgent_witness :
    (({ base_state with
        workspaces_ := [{ plain_workspace 1 "ws1" false with is_urgent_ := true },
          { plain_workspace 2 "ws2" false with is_urgent_ := true }]
        active_workspace_name_ := "ws2".toList } : Workspaces).update empty_reply).map
      (fun s => s.workspaces_.map (fun w => (w.name_, w.active_, w.is_urgent_)))
      = some [("ws1".toList, false, true), ("ws2".toList, true, false)] ∧
    ∃ s1, ({ base_state with
        workspaces_ := [{ plain_workspace 1 "ws1" false with is_urgent_ := true },
          { plain_workspace 2 "ws2" false with is_urgent_ := true }]
        active_workspace_name_ := "ws2".toList } : Workspaces).update empty_reply = some s1 :=
  ⟨by decide,
    (C22_tick_sets_active_and_clears_urgent
      { base_state with
        workspaces_ := [{ plain_workspace 1 "ws1" false with is_urgent_ := true },
          { plain_workspace 2 "ws2" false with is_urgent_ := true }]
        active_workspace_name_ := "ws2".toList } empty_reply).1 rfl⟩

/-! ## C23 -/

theorem normalize_name_eq (id : Int) (raw : Str)
    (h : ¬ (raw = "special".toList ∧ id ≠ -99)) :
    normalize_name id raw = some (normalized_name id raw) := by
  unfold normalize_name normalized_name
  by_cases h1 : starts_with raw "name:".toList = true
  · rw [if_pos h1, if_pos h1]
  · rw [if_neg h1, if_neg h1]
    by_cases h2 : starts_with raw "special".toList = true
    · rw [if_pos h2, if_pos h2]
      by_cases h3 : id = -99
      · rw [if_pos h3, if_pos h3]
      · rw [if_neg h3, if_neg h3]
        have hpre : "special".toList <+: raw := List.isPrefixOf_iff_prefix.mp h2
        obtain ⟨t, ht⟩ := hpre
        have hlen : 8 ≤ raw.length := by
          cases t with
          | nil =>
            exfalso
            apply h
            refine ⟨?_, h3⟩
            rw [← ht]
            simp
          | cons c t =>
            rw [← ht]
            simp
        simp [substrFrom, hlen]
    · rw [if_neg h2, if_neg h2]

/-- C23: the construction is not defined for every input. On the record with id 5 and the
raw name `special` the constructor asks for `substr(8)` of a string of seven characters,
which throws, and no workspace is built. On every other input the name and the special
flag are the ones the claim describes. -/
theorem C23_constructor_throws_on_bare_special :
    normalize_name 5 "special".toList = none ∧
    Workspace.construct base_state.window_rewrite_rules_ base_state.window_rewrite_default_ []
      { id := 5, name := "special".toList, monitor := "DP-1".toList, windows := 0,
        persistent := none } [] = none ∧
    (∀ (id : Int) (raw : Str), ¬ (raw = "special".toList ∧ id ≠ -99) →
      normalize_name id raw = some (normalized_name id raw)) := by
  refine ⟨by decide, by decide, normalize_name_eq⟩

/-! ## C24 -/

theorem closed_loop_absent (addr : Str) (reg : List Workspace)
    (h : holders reg addr = []) : closed_loop addr reg = (none, reg) := by
  induction reg with
  | nil => rfl
  | cons w rest ih =>
    rw [holders_cons] at h
    have hw : w.has_window addr = false := by
      by_cases hc : w.has_window addr = true
      · rw [if_pos hc] at h; cases h
      · simpa using hc
    rw [hw] at h
    simp only [Bool.false_eq_true, if_false] at h
    have hw1 : w.window_map_.contains addr = false := hw
    rw [closed_loop_cons, if_neg (by simp [hw1]), ih h]

theorem moved_loop_first (addr ws r : Str) (pre : List Workspace) (w : Workspace)
    (post : List Workspace) (hpre : ∀ x ∈ pre, x.name_ ≠ ws) (hw : w.name_ = ws) :
    moved_loop addr ws r (pre ++ w :: post) =
      pre ++ { w with window_map_ := w.window_map_.emplace addr r } :: post := by
  induction pre with
  | nil => simp [moved_loop_cons, hw]
  | cons x pre ih =>
    have hx : ¬ ws = x.name_ := fun e => hpre x (by simp) e.symm
    have ih1 := ih (fun y hy => hpre y (by simp [hy]))
    simp [moved_loop_cons, hx, ih1]

/-- C24: for every `movewindow` payload `addr,ws` whose address is in no workspace's window
map, `on_window_moved` adds the entry `addr` with the empty string as its value at the end
of the map of the first workspace named `ws`, and leaves every other workspace and every
other entry as they were. -/
theorem C24_move_of_unknown_window_inserts_empty_repr (s : Workspaces) (addr ws : Str)
    (pre : List Workspace) (w : Workspace) (post : List Workspace)
    (hfield : ',' ∉ addr)
    (habsent : holders s.workspaces_ addr = [])
    (hreg : s.workspaces_ = pre ++ w :: post) (hpre : ∀ x ∈ pre, x.name_ ≠ ws)
    (hw : w.name_ = ws) :
    (s.on_window_moved (addr ++ ',' :: ws)).workspaces_ =
      pre ++ { w with window_map_ := w.window_map_ ++ [(addr, [])] } :: post := by
  obtain ⟨h1, h2⟩ := split_first addr ws hfield
  simp only [Workspaces.on_window_moved, h1, h2]
  rw [closed_loop_absent addr s.workspaces_ habsent]
  simp only [Option.getD_none]
  rw [hreg, moved_loop_first addr ws [] pre w post hpre hw]
  have hwc : w.window_map_.contains addr = false := by
    have hmem : w ∈ s.workspaces_ := by rw [hreg]; simp
    by_cases hc : w.window_map_.contains addr = true
    · exfalso
      have : w ∈ holders s.workspaces_ addr := by
        simp only [holders, List.mem_filter, Workspace.has_window]
        exact ⟨hmem, hc⟩
      rw [habsent] at this
      simp at this
    · simpa using hc
  simp [StrMap.emplace, hwc]

/-- C24 at the registry `ws1` (holding `AA`), `ws2` and the payload `BB,ws2`. -/
theorem C24_move_of_unknown_window_inserts_empty_repr_witness :
    holders two_workspaces "BB".toList = [] ∧
    (({ base_state with workspaces_ := two_workspaces } : Workspaces).on_window_moved
        ("BB".toList ++ ',' :: "ws2".toList)).workspaces_ =
      [{ plain_workspace 1 "ws1" false with window_map_ := [("AA".toList, "F".toList)] }] ++
        { plain_workspace 2 "ws2" false with
          window_map_ := (plain_workspace 2 "ws2" false).window_map_ ++ [("BB".toList, [])] }
          :: [] :=
  ⟨by decide,
    C24_move_of_unknown_window_inserts_empty_repr
      { base_state with workspaces_ := two_workspaces } "BB".toList "ws2".toList
      [{ plain_workspace 1 "ws1" false with window_map_ := [("AA".toList, "F".toList)] }]
      (plain_workspace 2 "ws2" false) [] (by decide) (by decide) rfl
      (fun x hx => by
        rw [List.mem_singleton.mp hx]
        decide)
      (by decide)⟩

/-! ## C25 -/

theorem set_urgent_first_absent (workspace_id : Int) (reg : List Workspace)
    (h : ∀ w ∈ reg, w.id_ ≠ workspace_id) : set_urgent_first workspace_id reg = reg := by
  induction reg with
  | nil => rfl
  | cons w rest ih =>
    have hw : ¬ w.id_ = workspace_id := h w (by simp)
    simp [set_urgent_first, hw, ih (fun x hx => h x (by simp [hx]))]

/-- C25: an urgent event whose address matches no client marks a workspace all the same
when one has the id -1. With the window `0xAA` as the only client, the event `urgent>>BB`
sets the urgent flag of the named special workspace `scratch`, whose id is -1: the lookup
starts from the id -1 as its "not found" value. When no workspace has the id -1 the urgent
flags are unchanged. -/
theorem C25_unmatched_urgent_marks_workspace_minus_one :
    (∀ c ∈ one_client_reply.clients, ends_with c.address "BB".toList = false) ∧
    (({ base_state with workspaces_ := with_special_minus_one } :
        Workspaces).set_urgent_workspace one_client_reply.clients "BB".toList).workspaces_.map
      (fun w => (w.name_, w.is_urgent_)) = [("1".toList, false), ("scratch".toList, true)] ∧
    (({ base_state with workspaces_ := with_special_minus_one } : Workspaces).onEvent
        one_client_reply "urgent>>BB".toList).map
      (fun s => s.workspaces_.map (fun w => (w.name_, w.is_urgent_)))
      = some [("1".toList, false), ("scratch".toList, true)] ∧
    (∀ (s : Workspaces) (clients : List ClientData) (addr : Str),
      (∀ c ∈ clients, ends_with c.address addr = false) →
      (∀ w ∈ s.workspaces_, w.id_ ≠ -1) →
      (s.set_urgent_workspace clients addr).workspaces_ = s.workspaces_) := by
  refine ⟨by decide, by decide, by decide, fun s clients addr hc hw => ?_⟩
  have hfind : clients.find? (fun c => ends_with c.address addr) = none := by
    rw [List.find?_eq_none]
    intro c hmem
    simp [hc c hmem]
  simp only [Workspaces.set_urgent_workspace, hfind]
  exact set_urgent_first_absent (-1) s.workspaces_ hw
